import Mathlib

/-!
Shallow embedding of fedup's staging and cleanup engines
(`src/fedup/sysprep.py`) and of its command-line validation
(`src/fedup/commandline.py`), with proofs about the claims of the
specification.

Modelling conventions:
* A directory is a finite association list from entry names to entries;
  a regular file's identity (the `os.lstat` comparison of inode and
  device) is a `FileId`.
* Python `OSError` values are carried as their `errno` (a `Nat`);
  `errno = 18` is `EXDEV` (cross-device link), `errno = 21` is `EISDIR`.
* Fallible Python code is embedded as `Except`.
* Paths are plain strings; the module-level path constants of the
  `fedup` package (`cachedir`, `packagedir`, ...) are not part of the
  staged sources, so they are placeholder string tokens; only their
  identity and distinctness matter.
-/

namespace Fedup

/-- The identity of an inode as `os.lstat` comparison sees it: two paths
compare lstat-equal exactly when they are hard links of the same inode
(same device, same inode number, hence the same full stat record). -/
structure FileId where
  dev : Nat
  ino : Nat
deriving DecidableEq, Repr

/-- A directory entry in `packagedir`: a subdirectory, a file that is a
hard link of the source inode `id`, or a file produced by `shutil.copy2`
from source path `src` (a fresh inode, never lstat-equal to the source). -/
inductive Entry where
  | dir : Entry
  | hardlink (id : FileId) : Entry
  | copied (src : String) : Entry
deriving DecidableEq, Repr

/-- A directory: an association list from entry names to entries. -/
abbrev Dirc := List (String × Entry)

/-- First-match lookup of an entry name. -/
def dlookup : Dirc → String → Option Entry
  | [], _ => none
  | (k, v) :: rest, f => if k = f then some v else dlookup rest f

/-- Removal of an entry name (`os.remove` on a file, `rm_rf` on a
subdirectory). -/
def derase : Dirc → String → Dirc
  | [], _ => []
  | (k, v) :: rest, f => if k = f then derase rest f else (k, v) :: derase rest f

theorem dlookup_derase (d : Dirc) (f g : String) :
    dlookup (derase d f) g = if g = f then none else dlookup d g := by
  induction d with
  | nil => simp [derase, dlookup]
  | cons kv rest ih =>
    obtain ⟨k, v⟩ := kv
    by_cases hkf : k = f
    · subst hkf
      rw [show derase ((k, v) :: rest) k = derase rest k by simp [derase], ih]
      by_cases hg : g = k
      · simp [hg]
      · have hkg : ¬ k = g := fun h => hg h.symm
        simp [hg, dlookup, hkg]
    · rw [show derase ((k, v) :: rest) f = (k, v) :: derase rest f by
        simp [derase, hkf]]
      by_cases hg : k = g
      · have hgf : ¬ g = f := fun h => hkf (hg.trans h)
        simp [dlookup, hg, hgf]
      · simp [dlookup, hg, ih]

theorem dlookup_mem {d : Dirc} {f : String} {e : Entry}
    (h : dlookup d f = some e) : (f, e) ∈ d := by
  induction d with
  | nil => simp [dlookup] at h
  | cons kv rest ih =>
    obtain ⟨k, v⟩ := kv
    by_cases hk : k = f
    · subst hk
      simp [dlookup] at h
      simp [h]
    · simp [dlookup, hk] at h
      exact List.mem_cons_of_mem _ (ih h)

theorem mem_derase {d : Dirc} {f : String} {kv : String × Entry}
    (h : kv ∈ derase d f) : kv ∈ d := by
  induction d with
  | nil => simp [derase] at h
  | cons kv2 rest ih =>
    obtain ⟨k, v⟩ := kv2
    by_cases hk : k = f
    · simp [derase, hk] at h
      exact List.mem_cons_of_mem _ (ih h)
    · simp only [derase, if_neg hk] at h
      rcases List.mem_cons.mp h with h1 | h2
      · exact h1 ▸ List.mem_cons_self _ _
      · exact List.mem_cons_of_mem _ (ih h2)

/-- Character-list prefix test (kernel-computable replacement for
`String.startsWith`). -/
def isPrefC : List Char → List Char → Bool
  | [], _ => true
  | _ :: _, [] => false
  | a :: as, b :: bs => a = b && isPrefC as bs

/-- `needle in hay`: Python substring containment. -/
def infixC (n : List Char) : List Char → Bool
  | [] => match n with | [] => true | _ :: _ => false
  | c :: cs => isPrefC n (c :: cs) || infixC n cs

/-- `s.startswith(pre)` on strings. -/
def startsWithC (s pre : String) : Bool :=
  isPrefC pre.data s.data

/-- `s.endswith(suf)` on strings (prefix test on the reversed data). -/
def endsWithC (s suf : String) : Bool :=
  isPrefC suf.data.reverse s.data.reverse

/-- `os.path.basename`: the part after the final slash. -/
def basenameC (cs : List Char) : List Char :=
  cs.foldl (fun acc c => if c = '/' then [] else acc ++ [c]) []

/-- `os.path.basename` on strings. -/
def pybasename (p : String) : String :=
  String.mk (basenameC p.data)

/-- Add a name to a set-like list of names (first occurrence kept). -/
def insertName (ns : List String) (n : String) : List String :=
  if n ∈ ns then ns else ns ++ [n]

theorem mem_insertName {ns : List String} {n m : String} :
    m ∈ insertName ns n ↔ m ∈ ns ∨ m = n := by
  unfold insertName
  by_cases h : n ∈ ns
  · simp only [if_pos h]
    constructor
    · exact Or.inl
    · rintro (hm | rfl)
      · exact hm
      · exact h
  · simp [if_neg h]

/-- One package handed to `link_pkgs` (the relevant view of a yum package
object): its `localPkg()` path, `remote_url`, `relativepath`, whether
`os.path.exists(localPkg)` holds, the `os.lstat` identity of the source
file, and `failErr`, the errno of an unexpected `os.link` failure injected
by the operating system (`none` when the only possible failure is the
cross-device condition, which the embedding derives from the devices). -/
structure Pkg where
  localPkg : String
  remote_url : String
  relativepath : String
  existsOnDisk : Bool
  srcId : FileId
  failErr : Option Nat
deriving DecidableEq, Repr

/-- `pkg.remote_url.startswith("file://")`. -/
def pkgRemote (p : Pkg) : Bool :=
  startsWithC p.remote_url "file://"

/-- The entry a successful link attempt leaves at the target: a hard link
of the source inode on the same device, or (after the `errno == 18`
cross-device fallback) a `copy2` copy. -/
def pkgOutcome (dev : Nat) (p : Pkg) : Entry :=
  if p.srcId.dev ≠ dev then Entry.copied p.localPkg else Entry.hardlink p.srcId

/-- `os.link(pkgpath, target)` with the source's `try/except OSError`
handler: an unexpected OS failure raises its errno unless it is 18
(`EXDEV`), in which case `copy2` runs; a link between different devices
fails with `EXDEV` and also falls back to `copy2`; otherwise the target
becomes a hard link.  The new entry is prepended to the directory, whose
name `b` is absent (the caller has just removed it or seen it absent). -/
def tryLink (dev : Nat) (p : Pkg) (b : String) (ns : List String) (d : Dirc) :
    Except Nat (List String × Dirc) :=
  match p.failErr with
  | some e =>
    if e = 18 then Except.ok (ns, (b, Entry.copied p.localPkg) :: d)
    else Except.error e
  | none =>
    if p.srcId.dev ≠ dev then Except.ok (ns, (b, Entry.copied p.localPkg) :: d)
    else Except.ok (ns, (b, Entry.hardlink p.srcId) :: d)

/-- The body of the `for pkg in pkgs` loop of `link_pkgs`
(src/fedup/sysprep.py lines 47-74): remote packages record a
`media/<relativepath>` basename; missing packages are skipped with a
warning; otherwise, if a target entry exists and is lstat-equal to the
source it is kept, else any existing target (weirdo directory or stale
file) is removed and a link is attempted. -/
def processPkg (dev : Nat) (acc : List String × Dirc) (p : Pkg) :
    Except Nat (List String × Dirc) :=
  if pkgRemote p then
    Except.ok (insertName acc.1 ("media/" ++ p.relativepath), acc.2)
  else if ¬ p.existsOnDisk then
    Except.ok acc
  else
    let b := pybasename p.localPkg
    let ns := insertName acc.1 b
    match dlookup acc.2 b with
    | some e =>
      if e = Entry.hardlink p.srcId then Except.ok (ns, acc.2)
      else tryLink dev p b ns (derase acc.2 b)
    | none => tryLink dev p b ns acc.2

/-- The whole package loop of `link_pkgs`. -/
def linkLoop (dev : Nat) (pkgs : List Pkg) (acc : List String × Dirc) :
    Except Nat (List String × Dirc) :=
  match pkgs with
  | [] => Except.ok acc
  | p :: ps =>
    match processPkg dev acc p with
    | Except.error e => Except.error e
    | Except.ok acc2 => linkLoop dev ps acc2

/-- The leftover sweep of `link_pkgs` (lines 76-79): every `.rpm`-suffixed
entry whose name is not in `pkgbasenames` is removed by `os.remove`, which
raises `EISDIR` (21) when the entry is a subdirectory. -/
def sweepDir (ns : List String) : Dirc → Except Nat Dirc
  | [] => Except.ok []
  | (f, e) :: rest =>
    if endsWithC f ".rpm" && !(decide (f ∈ ns)) then
      match e with
      | Entry.dir => Except.error 21
      | _ => sweepDir ns rest
    else
      match sweepDir ns rest with
      | Except.error e2 => Except.error e2
      | Except.ok d2 => Except.ok ((f, e) :: d2)

/-- Modelled from the spec: the module-level path constants of the
`fedup` package (its `__init__` is not among the staged sources).  Only
their identity as distinct path tokens is used. -/
def cachedir : String := "/var/tmp/system-upgrade"

/-- Modelled from the spec: see `cachedir`. -/
def packagedir : String := "/var/tmp/system-upgrade/pkgs"

/-- Modelled from the spec: see `cachedir`. -/
def upgraderoot : String := "/system-upgrade-root"

/-- src/fedup/sysprep.py line 34. -/
def upgrade_target_requires : String :=
  "/lib/systemd/system/system-upgrade.target.requires"

/-- Modelled from the spec: the persisted key/value store `upgradeconf`
(section `cleanup` key `dirs`, section `boot` keys `kernel` and `initrd`);
`get` yields `none` for an unset key and `set` overwrites. -/
structure Conf where
  cleanupDirs : Option String
  bootKernel : Option String
  bootInitrd : Option String
deriving DecidableEq, Repr

/-- The filesystem and bootloader state the staging and cleanup engines
touch.  `pkgdir = none` means `packagedir` does not exist; `files` and
`dirs` list the other existing regular files and directories by path;
`bootEntries` lists the kernels that have a boot-menu entry. -/
structure SysState where
  pkgdir : Option Dirc
  packagelist : Option (List String)
  conf : Conf
  upgradelink : Option String
  upgraderootExists : Bool
  cachedirExists : Bool
  targetRequiresExists : Bool
  bootEntries : List String
  files : List String
  dirs : List String
deriving DecidableEq, Repr

/-- `link_pkgs` (src/fedup/sysprep.py lines 36-89): `mkdir_p(packagedir)`,
the package loop, the leftover sweep, the packagelist write, and the
persisted cleanup-directory list `cachedir;packagedir`. -/
def link_pkgs (dev : Nat) (pkgs : List Pkg) (st : SysState) :
    Except Nat SysState :=
  let d0 := st.pkgdir.getD []
  match linkLoop dev pkgs ([], d0) with
  | Except.error e => Except.error e
  | Except.ok (ns, d1) =>
    match sweepDir ns d1 with
    | Except.error e => Except.error e
    | Except.ok d2 =>
      Except.ok { st with
        pkgdir := some d2
        packagelist := some ns
        conf := { st.conf with
          cleanupDirs := some (cachedir ++ ";" ++ packagedir) } }

/-- `setup_upgradelink` (lines 91-97): remove the symlink, ignoring
absence, then symlink `packagedir`. -/
def setup_upgradelink (st : SysState) : SysState :=
  { st with upgradelink := some packagedir }

/-- `setup_upgraderoot` (lines 112-118): create `upgraderoot` when
absent, no-op when it is already a directory. -/
def setup_upgraderoot (st : SysState) : SysState :=
  { st with upgraderootExists := true }

/-- The collaborator answers `prep_boot` consults: whether mdadm.conf or
crypttab must be appended, the updates found in `update_img_dir`, and
`kernelver(kernel)`.  The initramfs append operations are external,
byte-level edits outside the modelled state. -/
structure BootEnv where
  needMdadm : Bool
  needCrypttab : Bool
  updates : List String
  kernelVer : Option String
deriving DecidableEq, Repr

/-- Modelled from the spec: `boot.add_entry` (the `fedup.boot`
collaborator is not among the staged sources) installs a boot-menu entry
for the staged kernel, safely re-runnable, and the chosen kernel and
initrd paths are recorded into the persisted state (spec section 4.3
step 4). -/
def boot_add_entry (kernel initrd : String) (st : SysState) : SysState :=
  { st with
    bootEntries := insertName st.bootEntries kernel
    conf := { st.conf with bootKernel := some kernel, bootInitrd := some initrd } }

/-- `prep_boot` (lines 132-165) restricted to the modelled state: the
mdadm/crypttab/updates initramfs appends touch only the initrd image
(external); `mkdir_p` of the module directory for `kernelver(kernel)`
when the version is derivable; finally `modify_bootloader`. -/
def prep_boot (env : BootEnv) (kernel initrd : String) (st : SysState) :
    SysState :=
  let st1 := match env.kernelVer with
    | some kv => { st with dirs := insertName st.dirs ("/lib/modules/" ++ kv) }
    | none => st
  boot_add_entry kernel initrd st1

/-- `prep_upgrade` (lines 120-126). -/
def prep_upgrade (dev : Nat) (pkgs : List Pkg) (st : SysState) :
    Except Nat SysState :=
  match link_pkgs dev pkgs st with
  | Except.error e => Except.error e
  | Except.ok st1 => Except.ok (setup_upgraderoot (setup_upgradelink st1))

/-- The Stage Engine: `prep_upgrade` followed by `prep_boot`. -/
def stage (dev : Nat) (env : BootEnv) (pkgs : List Pkg)
    (kernel initrd : String) (st : SysState) : Except Nat SysState :=
  match prep_upgrade dev pkgs st with
  | Except.error e => Except.error e
  | Except.ok st1 => Except.ok (prep_boot env kernel initrd st1)

/-- Python truthiness of a `get` result (`None` and the empty string are
falsy). -/
def pyTruthy : Option String → Bool
  | none => false
  | some s => s != ""

/-- `reset_boot` (lines 167-172): read the persisted kernel and, when
set, remove its boot-menu entry (`boot.remove_entry`, modelled from the
spec as removal of the entry for that kernel). -/
def reset_boot (st : SysState) : SysState :=
  match st.conf.bootKernel with
  | some k => if k != "" then
      { st with bootEntries := st.bootEntries.filter (fun e => e ≠ k) }
    else st
  | none => st

/-- `rm_f`: force-remove a regular file, no error when absent. -/
def rm_f (st : SysState) (p : String) : SysState :=
  { st with files := st.files.filter (fun q => q ≠ p) }

/-- `remove_boot` (lines 174-182): force-remove the persisted kernel and
initrd files when set. -/
def remove_boot (st : SysState) : SysState :=
  let st1 := match st.conf.bootKernel with
    | some k => if k != "" then rm_f st k else st
    | none => st
  match st1.conf.bootInitrd with
  | some i => if i != "" then rm_f st1 i else st1
  | none => st1

/-- `rm_rf`: recursively force-remove a directory path, no error when
absent.  The four modelled directories are dispatched by path; any other
path is removed from `dirs`. -/
def rm_rf (st : SysState) (p : String) : SysState :=
  { st with
    pkgdir := if p = packagedir then none else st.pkgdir
    cachedirExists := if p = cachedir then false else st.cachedirExists
    upgraderootExists := if p = upgraderoot then false else st.upgraderootExists
    targetRequiresExists :=
      if p = upgrade_target_requires then false else st.targetRequiresExists
    dirs := st.dirs.filter (fun q => q ≠ p) }

/-- `remove_cache` (lines 184-192): split the persisted cleanup list on
`;` (`conf.get(...) or ''`), append `cachedir` and `packagedir` "just to
be sure", and `rm_rf` each. -/
def remove_cache (st : SysState) : SysState :=
  let raw := (st.conf.cleanupDirs.getD "")
  ((raw.splitOn ";") ++ [cachedir, packagedir]).foldl rm_rf st

/-- `misc_cleanup` (lines 194-199): `rm_f` the upgrade symlink, `rm_rf`
`upgraderoot` and the bootloader-requires directory. -/
def misc_cleanup (st : SysState) : SysState :=
  rm_rf (rm_rf { st with upgradelink := none } upgraderoot)
    upgrade_target_requires

/-- `do_cleanup` (src/fedup/commandline.py lines 247-260). -/
def do_cleanup (skipbootloader skipkernel skippkgs : Bool)
    (clean : Option String) (st : SysState) : SysState :=
  let st1 := if !skipbootloader then reset_boot st else st
  if clean = some "bootloader" then st1
  else
    let st2 := if !skipkernel then remove_boot st1 else st1
    let st3 := if !skippkgs then remove_cache st2 else st2
    misc_cleanup st3

/-- The basename `link_pkgs` records for one package, independent of the
directory: `media/<relativepath>` for remote packages, nothing for
missing ones, `basename(localPkg)` otherwise. -/
def pkgName (p : Pkg) : Option String :=
  if pkgRemote p then some ("media/" ++ p.relativepath)
  else if ¬ p.existsOnDisk then none
  else some (pybasename p.localPkg)

/-- The basename set (`pkgbasenames`) computed by the package loop. -/
def pkgNames (pkgs : List Pkg) (ns : List String) : List String :=
  match pkgs with
  | [] => ns
  | p :: ps =>
    pkgNames ps (match pkgName p with
      | some n => insertName ns n
      | none => ns)

theorem tryLink_names {dev : Nat} {p : Pkg} {b : String} {ns : List String}
    {d : Dirc} {acc2 : List String × Dirc}
    (h : tryLink dev p b ns d = Except.ok acc2) : acc2.1 = ns := by
  unfold tryLink at h
  rcases hf : p.failErr with _ | e2
  · rw [hf] at h
    by_cases hdev : p.srcId.dev = dev <;> simp [hdev] at h <;>
      exact congrArg Prod.fst h.symm
  · rw [hf] at h
    dsimp only at h
    by_cases h18 : e2 = 18
    · rw [if_pos h18] at h
      simp at h
      exact congrArg Prod.fst h.symm
    · rw [if_neg h18] at h
      exact absurd h (by simp)

theorem tryLink_dir {dev : Nat} {p : Pkg} {b : String} {ns : List String}
    {d : Dirc} {acc2 : List String × Dirc}
    (h : tryLink dev p b ns d = Except.ok acc2) :
    acc2.2 = (b, Entry.copied p.localPkg) :: d ∨
      acc2.2 = (b, Entry.hardlink p.srcId) :: d := by
  unfold tryLink at h
  rcases hf : p.failErr with _ | e2
  · rw [hf] at h
    by_cases hdev : p.srcId.dev = dev <;> simp [hdev] at h
    · exact Or.inr (congrArg Prod.snd h.symm)
    · exact Or.inl (congrArg Prod.snd h.symm)
  · rw [hf] at h
    dsimp only at h
    by_cases h18 : e2 = 18
    · rw [if_pos h18] at h
      simp at h
      exact Or.inl (congrArg Prod.snd h.symm)
    · rw [if_neg h18] at h
      exact absurd h (by simp)

theorem processPkg_names {dev : Nat} {acc acc2 : List String × Dirc} {p : Pkg}
    (h : processPkg dev acc p = Except.ok acc2) :
    acc2.1 = match pkgName p with
      | some n => insertName acc.1 n
      | none => acc.1 := by
  by_cases hr : pkgRemote p
  · rw [show pkgName p = some ("media/" ++ p.relativepath) by
      simp [pkgName, hr]]
    unfold processPkg at h
    rw [if_pos hr] at h
    simp at h
    exact congrArg Prod.fst h.symm
  · by_cases he : p.existsOnDisk = true
    · rw [show pkgName p = some (pybasename p.localPkg) by
        simp [pkgName, hr, he]]
      unfold processPkg at h
      rw [if_neg hr, if_neg (by simp [he])] at h
      dsimp only at h
      rcases hd : dlookup acc.2 (pybasename p.localPkg) with _ | e <;>
        rw [hd] at h <;> dsimp only at h
      · exact tryLink_names h
      · by_cases heq : e = Entry.hardlink p.srcId
        · rw [if_pos heq] at h
          simp at h
          exact congrArg Prod.fst h.symm
        · rw [if_neg heq] at h
          exact tryLink_names h
    · rw [show pkgName p = none by simp [pkgName, hr, he]]
      unfold processPkg at h
      rw [if_neg hr, if_pos (by simp [he])] at h
      simp at h
      exact congrArg Prod.fst h.symm

theorem linkLoop_names {dev : Nat} {pkgs : List Pkg}
    {acc acc2 : List String × Dirc}
    (h : linkLoop dev pkgs acc = Except.ok acc2) :
    acc2.1 = pkgNames pkgs acc.1 := by
  induction pkgs generalizing acc with
  | nil =>
    simp only [linkLoop] at h
    simp at h
    simp [pkgNames, h]
  | cons p ps ih =>
    simp only [linkLoop] at h
    rcases hp : processPkg dev acc p with e | accMid
    · rw [hp] at h; exact absurd h (by simp)
    · rw [hp] at h
      have hn := processPkg_names hp
      have := ih h
      rw [this, hn]
      rfl

theorem dlookup_cons (k : String) (v : Entry) (d : Dirc) (f : String) :
    dlookup ((k, v) :: d) f = if k = f then some v else dlookup d f := rfl

theorem processPkg_dir {dev : Nat} {acc acc2 : List String × Dirc} {p : Pkg}
    (h : processPkg dev acc p = Except.ok acc2) :
    acc2.2 = acc.2 ∨
      ∃ outE, (outE = Entry.copied p.localPkg ∨ outE = Entry.hardlink p.srcId) ∧
        (acc2.2 = (pybasename p.localPkg, outE) :: acc.2 ∨
          acc2.2 = (pybasename p.localPkg, outE) ::
            derase acc.2 (pybasename p.localPkg)) := by
  by_cases hr : pkgRemote p
  · unfold processPkg at h
    rw [if_pos hr] at h
    simp at h
    exact Or.inl (by rw [← h])
  · by_cases he : p.existsOnDisk = true
    · unfold processPkg at h
      rw [if_neg hr, if_neg (by simp [he])] at h
      dsimp only at h
      rcases hd : dlookup acc.2 (pybasename p.localPkg) with _ | e <;>
        rw [hd] at h <;> dsimp only at h
      · rcases tryLink_dir h with h2 | h2
        · exact Or.inr ⟨Entry.copied p.localPkg, Or.inl rfl, Or.inl h2⟩
        · exact Or.inr ⟨Entry.hardlink p.srcId, Or.inr rfl, Or.inl h2⟩
      · by_cases heq : e = Entry.hardlink p.srcId
        · rw [if_pos heq] at h
          simp at h
          exact Or.inl (by rw [← h])
        · rw [if_neg heq] at h
          rcases tryLink_dir h with h2 | h2
          · exact Or.inr ⟨Entry.copied p.localPkg, Or.inl rfl, Or.inr h2⟩
          · exact Or.inr ⟨Entry.hardlink p.srcId, Or.inr rfl, Or.inr h2⟩
    · unfold processPkg at h
      rw [if_neg hr, if_pos (by simp [he])] at h
      simp at h
      exact Or.inl (by rw [← h])

theorem processPkg_presence {dev : Nat} {acc acc2 : List String × Dirc}
    {p : Pkg} (h : processPkg dev acc p = Except.ok acc2) (f : String)
    (hp : dlookup acc.2 f ≠ none) : dlookup acc2.2 f ≠ none := by
  rcases processPkg_dir h with h2 | ⟨outE, _, h2 | h2⟩ <;> rw [h2]
  · exact hp
  · rw [dlookup_cons]
    by_cases hb : pybasename p.localPkg = f <;> simp [hb]
    exact hp
  · rw [dlookup_cons]
    by_cases hb : pybasename p.localPkg = f <;> simp [hb]
    rw [dlookup_derase]
    have hfb : ¬ f = pybasename p.localPkg := fun hh => hb hh.symm
    simpa [hfb] using hp

theorem linkLoop_presence {dev : Nat} {pkgs : List Pkg}
    {acc acc2 : List String × Dirc}
    (h : linkLoop dev pkgs acc = Except.ok acc2) (f : String)
    (hp : dlookup acc.2 f ≠ none) : dlookup acc2.2 f ≠ none := by
  induction pkgs generalizing acc with
  | nil =>
    simp only [linkLoop] at h
    simp at h
    rw [← h]
    exact hp
  | cons p ps ih =>
    simp only [linkLoop] at h
    rcases hq : processPkg dev acc p with e | accMid
    · rw [hq] at h; exact absurd h (by simp)
    · rw [hq] at h
      exact ih h (processPkg_presence hq f hp)

/-- The leftover sweep is a filter: given that it succeeded, an entry name
survives exactly when it is not a `.rpm` name outside the basename set. -/
theorem sweepDir_ok_lookup {ns : List String} {d d2 : Dirc}
    (h : sweepDir ns d = Except.ok d2) (f : String) :
    dlookup d2 f =
      if endsWithC f ".rpm" && !(decide (f ∈ ns)) then none
      else dlookup d f := by
  induction d generalizing d2 with
  | nil =>
    simp only [sweepDir] at h
    simp at h
    subst h
    by_cases hc : (endsWithC f ".rpm" && !(decide (f ∈ ns))) = true <;>
      simp [hc, dlookup]
  | cons kv rest ih =>
    obtain ⟨g, e⟩ := kv
    simp only [sweepDir] at h
    by_cases hg : (endsWithC g ".rpm" && !(decide (g ∈ ns))) = true
    · rw [if_pos hg] at h
      rcases e with _ | id | src
      · exact absurd h (by simp)
      all_goals {
        have h2 := ih h
        rw [h2]
        by_cases hfg : g = f
        · subst hfg
          simp [hg, dlookup]
        · by_cases hc : (endsWithC f ".rpm" && !(decide (f ∈ ns))) = true <;>
            simp [hc, dlookup, hfg]
      }
    · rw [if_neg hg] at h
      rcases hs : sweepDir ns rest with e2 | dd
      · rw [hs] at h; exact absurd h (by simp)
      · rw [hs] at h
        simp at h
        rw [← h, dlookup_cons]
        by_cases hfg : g = f
        · subst hfg
          rw [if_pos rfl, if_neg hg, dlookup_cons, if_pos rfl]
        · rw [if_neg hfg, ih hs]
          by_cases hc : (endsWithC f ".rpm" && !(decide (f ∈ ns))) = true <;>
            simp [hc, dlookup, hfg]

/-- Lookup of an entry name in `packagedir` (absent directory = empty). -/
def pkgdirLookup (st : SysState) (f : String) : Option Entry :=
  dlookup (st.pkgdir.getD []) f

theorem link_pkgs_inv {dev : Nat} {pkgs : List Pkg} {st0 st1 : SysState}
    (h : link_pkgs dev pkgs st0 = Except.ok st1) :
    ∃ ns d1 d2,
      linkLoop dev pkgs ([], st0.pkgdir.getD []) = Except.ok (ns, d1) ∧
      sweepDir ns d1 = Except.ok d2 ∧
      ns = pkgNames pkgs [] ∧
      st1 = { st0 with
        pkgdir := some d2
        packagelist := some ns
        conf := { st0.conf with
          cleanupDirs := some (cachedir ++ ";" ++ packagedir) } } := by
  unfold link_pkgs at h
  dsimp only at h
  rcases hl : linkLoop dev pkgs ([], st0.pkgdir.getD []) with e | acc
  · rw [hl] at h; exact absurd h (by simp)
  · obtain ⟨ns, d1⟩ := acc
    rw [hl] at h
    dsimp only at h
    rcases hs : sweepDir ns d1 with e | d2
    · rw [hs] at h; exact absurd h (by simp)
    · rw [hs] at h
      simp at h
      refine ⟨ns, d1, d2, rfl, hs, ?_, h.symm⟩
      have := linkLoop_names hl
      simpa using this

/-- C2.  After a successful `link_pkgs`, a `.rpm` entry that was present
before is gone exactly when its name is not in the computed basename set;
when the names of the basename set were all present before (the prior
leftover set is a superset of the current set), the surviving `.rpm`
entries are exactly the `.rpm` names of the set. -/
theorem c2_leftover_sweep_exact (dev : Nat) (pkgs : List Pkg)
    (st0 st1 : SysState) (h : link_pkgs dev pkgs st0 = Except.ok st1) :
    (∀ f, endsWithC f ".rpm" = true → pkgdirLookup st0 f ≠ none →
        (pkgdirLookup st1 f = none ↔ f ∉ pkgNames pkgs []))
    ∧ (∀ f, f ∈ pkgNames pkgs [] → pkgdirLookup st0 f ≠ none →
        pkgdirLookup st1 f ≠ none)
    ∧ ((∀ f, f ∈ pkgNames pkgs [] → pkgdirLookup st0 f ≠ none) →
        ∀ f, endsWithC f ".rpm" = true →
          (pkgdirLookup st1 f ≠ none ↔ f ∈ pkgNames pkgs [])) := by
  obtain ⟨ns, d1, d2, hl, hs, hns, hst⟩ := link_pkgs_inv h
  have h1 : ∀ f, pkgdirLookup st1 f = dlookup d2 f := by
    intro f
    rw [hst]
    rfl
  have hkeep : ∀ f, f ∈ pkgNames pkgs [] → pkgdirLookup st0 f ≠ none →
      pkgdirLookup st1 f ≠ none := by
    intro f hf hp
    rw [h1 f]
    have hpres := linkLoop_presence hl f hp
    rw [sweepDir_ok_lookup hs f]
    have : (endsWithC f ".rpm" && !(decide (f ∈ ns))) = false := by
      rw [hns]
      simp [hf]
    rw [this]
    simpa using hpres
  have hgone : ∀ f, endsWithC f ".rpm" = true → f ∉ pkgNames pkgs [] →
      pkgdirLookup st1 f = none := by
    intro f hrpm hf
    rw [h1 f]
    rw [sweepDir_ok_lookup hs f]
    have : (endsWithC f ".rpm" && !(decide (f ∈ ns))) = true := by
      rw [hns]
      simp [hf, hrpm]
    rw [this]
    simp
  refine ⟨?_, hkeep, ?_⟩
  · intro f hrpm hp
    constructor
    · intro hnone hf
      exact hkeep f hf hp hnone
    · intro hf
      exact hgone f hrpm hf
  · intro hsup f hrpm
    constructor
    · intro hne
      by_contra hf
      exact hne (hgone f hrpm hf)
    · intro hf
      exact hkeep f hf (hsup f hf)

/-- Witness for C2 at a concrete staging: one linkable package `a.rpm`
already staged, a leftover `old.rpm` to be swept. -/
theorem c2_leftover_sweep_exact_witness :
    pkgdirLookup
        { pkgdir := some [("a.rpm", Entry.hardlink ⟨1, 10⟩)],
          packagelist := some ["a.rpm"],
          conf := ⟨some (cachedir ++ ";" ++ packagedir), none, none⟩,
          upgradelink := none, upgraderootExists := false,
          cachedirExists := true, targetRequiresExists := false,
          bootEntries := [], files := [], dirs := [] } "old.rpm" = none ↔
      "old.rpm" ∉ pkgNames
        [{ localPkg := "/cache/a.rpm", remote_url := "http://r",
           relativepath := "", existsOnDisk := true, srcId := ⟨1, 10⟩,
           failErr := none }] [] :=
  ((c2_leftover_sweep_exact 1
    [{ localPkg := "/cache/a.rpm", remote_url := "http://r",
       relativepath := "", existsOnDisk := true, srcId := ⟨1, 10⟩,
       failErr := none }]
    { pkgdir := some [("old.rpm", Entry.copied "/x"),
        ("a.rpm", Entry.hardlink ⟨1, 10⟩)],
      packagelist := none, conf := ⟨none, none, none⟩,
      upgradelink := none, upgraderootExists := false,
      cachedirExists := true, targetRequiresExists := false,
      bootEntries := [], files := [], dirs := [] }
    { pkgdir := some [("a.rpm", Entry.hardlink ⟨1, 10⟩)],
      packagelist := some ["a.rpm"],
      conf := ⟨some (cachedir ++ ";" ++ packagedir), none, none⟩,
      upgradelink := none, upgraderootExists := false,
      cachedirExists := true, targetRequiresExists := false,
      bootEntries := [], files := [], dirs := [] }
    rfl).1 "old.rpm" (by decide) (by decide))

/-- C10.  When a package reaches the link attempt (non-remote, present on
disk, target absent or not lstat-equal), then: with no injected OS
failure and the source on a different device than `packagedir`, the link
fails `EXDEV` and the loop continues after a full copy lands at the
target; an OS failure with errno 18 is handled the same way; an OS
failure with any other errno aborts `link_pkgs` with that errno. -/
theorem c10_crossdevice_fallback (dev : Nat) (p : Pkg) (ps : List Pkg)
    (ns : List String) (d : Dirc)
    (hrem : pkgRemote p = false) (hex : p.existsOnDisk = true)
    (hmiss : dlookup d (pybasename p.localPkg) ≠
      some (Entry.hardlink p.srcId)) :
    (p.failErr = none → p.srcId.dev ≠ dev →
      ∃ d2, processPkg dev (ns, d) p =
          Except.ok (insertName ns (pybasename p.localPkg), d2) ∧
        dlookup d2 (pybasename p.localPkg) =
          some (Entry.copied p.localPkg) ∧
        (∀ f, f ≠ pybasename p.localPkg → dlookup d2 f = dlookup d f) ∧
        linkLoop dev (p :: ps) (ns, d) =
          linkLoop dev ps (insertName ns (pybasename p.localPkg), d2))
    ∧ (p.failErr = some 18 →
      ∃ d2, processPkg dev (ns, d) p =
          Except.ok (insertName ns (pybasename p.localPkg), d2) ∧
        dlookup d2 (pybasename p.localPkg) =
          some (Entry.copied p.localPkg))
    ∧ (∀ e, p.failErr = some e → e ≠ 18 →
        processPkg dev (ns, d) p = Except.error e ∧
        linkLoop dev (p :: ps) (ns, d) = Except.error e ∧
        ∀ st : SysState, st.pkgdir = some d →
          link_pkgs dev (p :: ps) st = Except.error e) := by
  have hproc : ∀ ns' : List String,
      processPkg dev (ns', d) p =
        tryLink dev p (pybasename p.localPkg)
          (insertName ns' (pybasename p.localPkg))
          (match dlookup d (pybasename p.localPkg) with
            | some _ => derase d (pybasename p.localPkg)
            | none => d) := by
    intro ns'
    unfold processPkg
    rw [if_neg (by simp [hrem]), if_neg (by simp [hex])]
    dsimp only
    rcases hd : dlookup d (pybasename p.localPkg) with _ | e
    · rfl
    · have hne : ¬ e = Entry.hardlink p.srcId := by
        intro hcontra
        exact hmiss (by rw [hd, hcontra])
      dsimp only
      rw [if_neg hne]
  refine ⟨?_, ?_, ?_⟩
  · intro hfe hdev
    refine ⟨(pybasename p.localPkg, Entry.copied p.localPkg) ::
      (match dlookup d (pybasename p.localPkg) with
        | some _ => derase d (pybasename p.localPkg)
        | none => d), ?_, ?_, ?_, ?_⟩
    · rw [hproc ns]
      unfold tryLink
      rw [hfe]
      rw [if_pos hdev]
    · rw [dlookup_cons, if_pos rfl]
    · intro f hf
      rw [dlookup_cons,
        if_neg (fun hcontra => hf hcontra.symm)]
      rcases hd : dlookup d (pybasename p.localPkg) with _ | e
      · rfl
      · rw [dlookup_derase, if_neg hf]
    · simp only [linkLoop]
      rw [hproc ns]
      unfold tryLink
      rw [hfe, if_pos hdev]
  · intro hfe
    refine ⟨(pybasename p.localPkg, Entry.copied p.localPkg) ::
      (match dlookup d (pybasename p.localPkg) with
        | some _ => derase d (pybasename p.localPkg)
        | none => d), ?_, ?_⟩
    · rw [hproc ns]
      unfold tryLink
      rw [hfe]
      dsimp only
      rw [if_pos rfl]
    · rw [dlookup_cons, if_pos rfl]
  · intro e hfe he18
    have herr : ∀ ns' : List String,
        processPkg dev (ns', d) p = Except.error e := by
      intro ns'
      rw [hproc ns']
      unfold tryLink
      rw [hfe]
      dsimp only
      rw [if_neg he18]
    have hloop : linkLoop dev (p :: ps) (ns, d) = Except.error e := by
      simp only [linkLoop]
      rw [herr ns]
    refine ⟨herr ns, hloop, ?_⟩
    intro st hst
    unfold link_pkgs
    dsimp only
    rw [hst]
    simp only [Option.getD]
    rw [show linkLoop dev (p :: ps) ([], d) = Except.error e by
      simp only [linkLoop]; rw [herr []]]

/-- Witness for C10: a package on device 2 linked into a `packagedir` on
device 1 falls back to a copy and the loop goes on. -/
theorem c10_crossdevice_fallback_witness :
    ∃ d2, processPkg 1 ([], ([] : Dirc))
        { localPkg := "/cache/b.rpm", remote_url := "http://r",
          relativepath := "", existsOnDisk := true, srcId := ⟨2, 20⟩,
          failErr := none } =
        Except.ok (insertName [] (pybasename "/cache/b.rpm"), d2) ∧
      dlookup d2 (pybasename "/cache/b.rpm") =
        some (Entry.copied "/cache/b.rpm") ∧
      (∀ f, f ≠ pybasename "/cache/b.rpm" →
        dlookup d2 f = dlookup ([] : Dirc) f) ∧
      linkLoop 1
          [{ localPkg := "/cache/b.rpm", remote_url := "http://r",
             relativepath := "", existsOnDisk := true, srcId := ⟨2, 20⟩,
             failErr := none }] ([], []) =
        linkLoop 1 [] (insertName [] (pybasename "/cache/b.rpm"), d2) :=
  (c10_crossdevice_fallback 1
    { localPkg := "/cache/b.rpm", remote_url := "http://r",
      relativepath := "", existsOnDisk := true, srcId := ⟨2, 20⟩,
      failErr := none } [] [] []
    (by decide) (by decide) (by decide)).1 rfl (by decide)

theorem rm_rf_files (st : SysState) (p : String) :
    (rm_rf st p).files = st.files := rfl

theorem rm_rf_bootEntries (st : SysState) (p : String) :
    (rm_rf st p).bootEntries = st.bootEntries := rfl

theorem rm_rf_conf (st : SysState) (p : String) :
    (rm_rf st p).conf = st.conf := rfl

theorem rm_rf_upgradelink (st : SysState) (p : String) :
    (rm_rf st p).upgradelink = st.upgradelink := rfl

theorem foldl_rm_rf_files (L : List String) (st : SysState) :
    (L.foldl rm_rf st).files = st.files := by
  induction L generalizing st with
  | nil => rfl
  | cons h t ih => rw [List.foldl_cons, ih, rm_rf_files]

theorem foldl_rm_rf_bootEntries (L : List String) (st : SysState) :
    (L.foldl rm_rf st).bootEntries = st.bootEntries := by
  induction L generalizing st with
  | nil => rfl
  | cons h t ih => rw [List.foldl_cons, ih, rm_rf_bootEntries]

theorem foldl_rm_rf_conf (L : List String) (st : SysState) :
    (L.foldl rm_rf st).conf = st.conf := by
  induction L generalizing st with
  | nil => rfl
  | cons h t ih => rw [List.foldl_cons, ih, rm_rf_conf]

theorem foldl_rm_rf_upgradelink (L : List String) (st : SysState) :
    (L.foldl rm_rf st).upgradelink = st.upgradelink := by
  induction L generalizing st with
  | nil => rfl
  | cons h t ih => rw [List.foldl_cons, ih, rm_rf_upgradelink]

theorem rm_rf_pkgdir_none {st : SysState} (p : String)
    (h : st.pkgdir = none) : (rm_rf st p).pkgdir = none := by
  unfold rm_rf
  dsimp only
  rw [h]
  by_cases hp : p = packagedir <;> simp [hp]

theorem foldl_rm_rf_pkgdir_none {L : List String} {st : SysState}
    (h : packagedir ∈ L ∨ st.pkgdir = none) :
    (L.foldl rm_rf st).pkgdir = none := by
  induction L generalizing st with
  | nil =>
    rcases h with h | h
    · exact absurd h (List.not_mem_nil _)
    · exact h
  | cons q t ih =>
    rw [List.foldl_cons]
    rcases h with h | h
    · rcases List.mem_cons.mp h with h1 | h2
      · refine ih (Or.inr ?_)
        unfold rm_rf
        simp [← h1]
      · exact ih (Or.inl h2)
    · exact ih (Or.inr (rm_rf_pkgdir_none q h))

theorem rm_rf_cachedir_false {st : SysState} (p : String)
    (h : st.cachedirExists = false) : (rm_rf st p).cachedirExists = false := by
  unfold rm_rf
  dsimp only
  rw [h]
  by_cases hp : p = cachedir <;> simp [hp]

theorem foldl_rm_rf_cachedir_false {L : List String} {st : SysState}
    (h : cachedir ∈ L ∨ st.cachedirExists = false) :
    (L.foldl rm_rf st).cachedirExists = false := by
  induction L generalizing st with
  | nil =>
    rcases h with h | h
    · exact absurd h (List.not_mem_nil _)
    · exact h
  | cons q t ih =>
    rw [List.foldl_cons]
    rcases h with h | h
    · rcases List.mem_cons.mp h with h1 | h2
      · refine ih (Or.inr ?_)
        unfold rm_rf
        simp [← h1]
      · exact ih (Or.inl h2)
    · exact ih (Or.inr (rm_rf_cachedir_false q h))

theorem rm_rf_dirs_notmem {st : SysState} (p q : String)
    (h : q ∉ st.dirs) : q ∉ (rm_rf st p).dirs := by
  unfold rm_rf
  dsimp only
  intro hc
  exact h (List.mem_of_mem_filter hc)

theorem foldl_rm_rf_dirs_notmem {L : List String} {st : SysState} {q : String}
    (h : q ∈ L ∨ q ∉ st.dirs) : q ∉ (L.foldl rm_rf st).dirs := by
  induction L generalizing st with
  | nil =>
    rcases h with h | h
    · exact absurd h (List.not_mem_nil _)
    · exact h
  | cons p t ih =>
    rw [List.foldl_cons]
    rcases h with h | h
    · rcases List.mem_cons.mp h with h1 | h2
      · refine ih (Or.inr ?_)
        unfold rm_rf
        dsimp only
        intro hc
        rcases List.mem_filter.mp hc with ⟨_, hq⟩
        simp [h1] at hq
      · exact ih (Or.inl h2)
    · exact ih (Or.inr (rm_rf_dirs_notmem p q h))

/-- The boot-entry list after `reset_boot`: the persisted kernel's entry
is removed when a kernel is persisted. -/
def resetEntries (k : Option String) (es : List String) : List String :=
  match k with
  | some s => if s != "" then es.filter (fun e => e ≠ s) else es
  | none => es

theorem reset_boot_eq (st : SysState) :
    reset_boot st =
      { st with bootEntries := resetEntries st.conf.bootKernel st.bootEntries } := by
  unfold reset_boot resetEntries
  rcases st.conf.bootKernel with _ | k
  · rfl
  · by_cases hk : (k != "") = true <;> simp [hk]

/-- The file list after `remove_boot`: the persisted kernel and initrd
files are force-removed when set. -/
def removeBootFiles (c : Conf) (files : List String) : List String :=
  let f1 := match c.bootKernel with
    | some k => if k != "" then files.filter (fun q => q ≠ k) else files
    | none => files
  match c.bootInitrd with
  | some i => if i != "" then f1.filter (fun q => q ≠ i) else f1
  | none => f1

theorem remove_boot_eq (st : SysState) :
    remove_boot st = { st with files := removeBootFiles st.conf st.files } := by
  unfold remove_boot removeBootFiles rm_f
  dsimp only
  rcases hk : st.conf.bootKernel with _ | k
  · rcases hi : st.conf.bootInitrd with _ | i
    · rfl
    · by_cases hii : (i != "") = true <;> simp [hii]
  · dsimp only
    by_cases hb : (k != "") = true
    · rw [if_pos hb, if_pos hb]
      dsimp only
      rcases hi : st.conf.bootInitrd with _ | i
      · rfl
      · by_cases hii : (i != "") = true <;> simp [hii]
    · rw [if_neg hb, if_neg hb]
      rcases hi : st.conf.bootInitrd with _ | i
      · rfl
      · by_cases hii : (i != "") = true <;> simp [hii]

theorem misc_cleanup_upgradelink (st : SysState) :
    (misc_cleanup st).upgradelink = none := rfl

theorem misc_cleanup_files (st : SysState) :
    (misc_cleanup st).files = st.files := rfl

theorem misc_cleanup_bootEntries (st : SysState) :
    (misc_cleanup st).bootEntries = st.bootEntries := rfl

theorem misc_cleanup_uroot (st : SysState) :
    (misc_cleanup st).upgraderootExists = false := by
  unfold misc_cleanup rm_rf
  simp

theorem misc_cleanup_target (st : SysState) :
    (misc_cleanup st).targetRequiresExists = false := by
  unfold misc_cleanup rm_rf
  simp

theorem misc_cleanup_pkgdir_none {st : SysState} (h : st.pkgdir = none) :
    (misc_cleanup st).pkgdir = none :=
  rm_rf_pkgdir_none _ (rm_rf_pkgdir_none _ h)

theorem misc_cleanup_cachedir_false {st : SysState}
    (h : st.cachedirExists = false) :
    (misc_cleanup st).cachedirExists = false :=
  rm_rf_cachedir_false _ (rm_rf_cachedir_false _ h)

theorem misc_cleanup_dirs_notmem {st : SysState} {q : String}
    (h : q ∉ st.dirs) : q ∉ (misc_cleanup st).dirs :=
  rm_rf_dirs_notmem _ _ (rm_rf_dirs_notmem _ _ h)

/-- C3.  Cleanup in `bootloader` mode removes only the boot-menu entry
for the persisted kernel and leaves every other modelled component of the
state unchanged (the record update names only `bootEntries`); cleanup in
`all` mode with no skip flags removes the boot-menu entry, the persisted
kernel and initrd files, every persisted cleanup directory, the upgrade
symlink, the upgrade root and the bootloader-requires directory, and
`packagedir` and `cachedir` are gone. -/
theorem c3_cleanup_modes (st : SysState) (sk sp : Bool) :
    do_cleanup false sk sp (some "bootloader") st =
      { st with bootEntries := resetEntries st.conf.bootKernel st.bootEntries }
    ∧ ((do_cleanup false false false (some "all") st).pkgdir = none
      ∧ (do_cleanup false false false (some "all") st).cachedirExists = false
      ∧ (do_cleanup false false false (some "all") st).upgradelink = none
      ∧ (do_cleanup false false false (some "all") st).upgraderootExists = false
      ∧ (do_cleanup false false false (some "all") st).targetRequiresExists
          = false
      ∧ (do_cleanup false false false (some "all") st).bootEntries =
          resetEntries st.conf.bootKernel st.bootEntries
      ∧ (∀ k, st.conf.bootKernel = some k → (k != "") = true →
          k ∉ (do_cleanup false false false (some "all") st).files)
      ∧ (∀ i, st.conf.bootInitrd = some i → (i != "") = true →
          i ∉ (do_cleanup false false false (some "all") st).files)
      ∧ (∀ q, q ∈ (st.conf.cleanupDirs.getD "").splitOn ";" →
          q ∉ (do_cleanup false false false (some "all") st).dirs)) := by
  constructor
  · unfold do_cleanup
    rw [if_pos rfl]
    simp only [Bool.not_false, if_pos]
    exact reset_boot_eq st
  · have hall : do_cleanup false false false (some "all") st =
        misc_cleanup (remove_cache (remove_boot (reset_boot st))) := by
      unfold do_cleanup
      rw [if_neg (by decide)]
      rfl
    set stA := reset_boot st with hA
    set stB := remove_boot stA with hB
    set stC := remove_cache stB with hC
    have hAconf : stA.conf = st.conf := by rw [hA, reset_boot_eq]
    have hBconf : stB.conf = st.conf := by rw [hB, remove_boot_eq, hAconf]
    have hCexp : stC = ((stB.conf.cleanupDirs.getD "").splitOn ";" ++
        [cachedir, packagedir]).foldl rm_rf stB := by
      rw [hC]
      rfl
    have hCpkg : stC.pkgdir = none := by
      rw [hCexp]
      exact foldl_rm_rf_pkgdir_none
        (Or.inl (List.mem_append_right _ (by simp)))
    have hCcache : stC.cachedirExists = false := by
      rw [hCexp]
      exact foldl_rm_rf_cachedir_false
        (Or.inl (List.mem_append_right _ (by simp)))
    have hCfiles : stC.files = stB.files := by
      rw [hCexp]
      exact foldl_rm_rf_files _ _
    have hCboot : stC.bootEntries = stB.bootEntries := by
      rw [hCexp]
      exact foldl_rm_rf_bootEntries _ _
    have hBfiles : stB.files = removeBootFiles st.conf st.files := by
      rw [hB, remove_boot_eq, hAconf]
      have : stA.files = st.files := by rw [hA, reset_boot_eq]
      rw [this]
    have hBboot : stB.bootEntries = stA.bootEntries := by
      rw [hB, remove_boot_eq]
    have hAboot : stA.bootEntries =
        resetEntries st.conf.bootKernel st.bootEntries := by
      rw [hA, reset_boot_eq]
    rw [hall]
    refine ⟨misc_cleanup_pkgdir_none hCpkg,
      misc_cleanup_cachedir_false hCcache,
      misc_cleanup_upgradelink _,
      misc_cleanup_uroot _,
      misc_cleanup_target _,
      ?_, ?_, ?_, ?_⟩
    · rw [misc_cleanup_bootEntries, hCboot, hBboot, hAboot]
    · intro k hk hkne
      rw [misc_cleanup_files, hCfiles, hBfiles]
      unfold removeBootFiles
      rw [hk]
      dsimp only
      rw [if_pos hkne]
      rcases st.conf.bootInitrd with _ | i
      · dsimp only
        intro hc
        rcases List.mem_filter.mp hc with ⟨_, hq⟩
        simp at hq
      · dsimp only
        by_cases hii : (i != "") = true
        · rw [if_pos hii]
          intro hc
          rcases List.mem_filter.mp (List.mem_of_mem_filter hc) with ⟨_, hq⟩
          simp at hq
        · rw [if_neg hii]
          intro hc
          rcases List.mem_filter.mp hc with ⟨_, hq⟩
          simp at hq
    · intro i hi hine
      rw [misc_cleanup_files, hCfiles, hBfiles]
      unfold removeBootFiles
      rw [hi]
      dsimp only
      rw [if_pos hine]
      intro hc
      rcases List.mem_filter.mp hc with ⟨_, hq⟩
      simp at hq
    · intro q hq
      refine misc_cleanup_dirs_notmem ?_
      rw [hCexp, hBconf]
      exact foldl_rm_rf_dirs_notmem (Or.inl (List.mem_append_left _ hq))

/-- Whether a package's loop iteration touches the directory: not a
remote/media package, and present on disk. -/
def pkgTouches (p : Pkg) : Bool :=
  !(pkgRemote p) && p.existsOnDisk

/-- The pure directory effect of one loop iteration (no injected OS
failure): keep an lstat-equal target, otherwise replace the target with
the link or copy outcome. -/
def stepDir (dev : Nat) (p : Pkg) (d : Dirc) : Dirc :=
  if pkgTouches p then
    let b := pybasename p.localPkg
    match dlookup d b with
    | some e => if e = Entry.hardlink p.srcId then d
        else (b, pkgOutcome dev p) :: derase d b
    | none => (b, pkgOutcome dev p) :: d
  else d

/-- The pure directory effect of the whole loop. -/
def loopDir (dev : Nat) (pkgs : List Pkg) (d : Dirc) : Dirc :=
  match pkgs with
  | [] => d
  | p :: ps => loopDir dev ps (stepDir dev p d)

/-- The entry the loop leaves at name `f`, when some package puts one
there: the outcome of the last package whose basename is `f`. -/
def finalEntry (dev : Nat) (pkgs : List Pkg) (f : String) : Option Entry :=
  match pkgs with
  | [] => none
  | p :: ps =>
    match finalEntry dev ps f with
    | some e => some e
    | none =>
      if pkgTouches p = true ∧ pybasename p.localPkg = f
      then some (pkgOutcome dev p) else none

/-- Physical representability of a `packagedir` on device `dev`: every
hard-link entry records an inode on that device (a hard link cannot cross
devices). -/
def DirDevOk (dev : Nat) (d : Dirc) : Prop :=
  ∀ kv ∈ d, ∀ id, kv.2 = Entry.hardlink id → id.dev = dev

theorem dirDevOk_of_sub {dev : Nat} {d d2 : Dirc}
    (hsub : ∀ kv ∈ d2, kv ∈ d) (h : DirDevOk dev d) : DirDevOk dev d2 :=
  fun kv hkv id hid => h kv (hsub kv hkv) id hid

theorem processPkg_step {dev : Nat} {ns : List String} {d : Dirc} {p : Pkg}
    (hf : p.failErr = none) :
    processPkg dev (ns, d) p =
      Except.ok ((match pkgName p with
        | some n => insertName ns n
        | none => ns), stepDir dev p d) := by
  by_cases hr : pkgRemote p
  · have hn : pkgName p = some ("media/" ++ p.relativepath) := by
      simp [pkgName, hr]
    have ht : pkgTouches p = false := by simp [pkgTouches, hr]
    rw [hn]
    unfold processPkg stepDir
    rw [if_pos hr, if_neg (by simp [ht])]
  · have hr0 : pkgRemote p = false := by simpa using hr
    by_cases he : p.existsOnDisk = true
    · have hn : pkgName p = some (pybasename p.localPkg) := by
        simp [pkgName, hr, he]
      have ht : pkgTouches p = true := by simp [pkgTouches, hr0, he]
      rw [hn]
      unfold processPkg stepDir
      rw [if_neg hr, if_neg (by simp [he]), if_pos (by simp [ht])]
      dsimp only
      rcases hd : dlookup d (pybasename p.localPkg) with _ | e <;> dsimp only
      · unfold tryLink pkgOutcome
        rw [hf]
        by_cases hdev : p.srcId.dev = dev
        · rw [if_neg (by simp [hdev]), if_neg (by simp [hdev])]
        · rw [if_pos hdev, if_pos hdev]
      · by_cases heq : e = Entry.hardlink p.srcId
        · rw [if_pos heq, if_pos heq]
        · rw [if_neg heq, if_neg heq]
          unfold tryLink pkgOutcome
          rw [hf]
          by_cases hdev : p.srcId.dev = dev
          · rw [if_neg (by simp [hdev]), if_neg (by simp [hdev])]
          · rw [if_pos hdev, if_pos hdev]
    · have he0 : p.existsOnDisk = false := by simpa using he
      have hn : pkgName p = none := by simp [pkgName, hr, he]
      have ht : pkgTouches p = false := by simp [pkgTouches, he0]
      rw [hn]
      unfold processPkg stepDir
      rw [if_neg hr, if_pos (by simp [he]), if_neg (by simp [ht])]

theorem linkLoop_eq_loopDir {dev : Nat} {pkgs : List Pkg}
    {ns : List String} {d : Dirc}
    (hf : ∀ p ∈ pkgs, p.failErr = none) :
    linkLoop dev pkgs (ns, d) =
      Except.ok (pkgNames pkgs ns, loopDir dev pkgs d) := by
  induction pkgs generalizing ns d with
  | nil => rfl
  | cons p ps ih =>
    simp only [linkLoop]
    rw [processPkg_step (hf p (List.mem_cons_self _ _))]
    dsimp only
    rw [ih (fun q hq => hf q (List.mem_cons_of_mem _ hq))]
    rfl

theorem stepDir_lookup {dev : Nat} {p : Pkg} {d : Dirc}
    (hdev : DirDevOk dev d) (f : String) :
    dlookup (stepDir dev p d) f =
      if pkgTouches p = true ∧ pybasename p.localPkg = f
      then some (pkgOutcome dev p) else dlookup d f := by
  unfold stepDir
  by_cases ht : pkgTouches p = true
  · rw [if_pos ht]
    dsimp only
    rcases hd : dlookup d (pybasename p.localPkg) with _ | e <;> dsimp only
    · by_cases hbf : pybasename p.localPkg = f
      · rw [dlookup_cons, if_pos hbf, if_pos ⟨ht, hbf⟩]
      · rw [dlookup_cons, if_neg hbf, if_neg (fun hc => hbf hc.2)]
    · by_cases heq : e = Entry.hardlink p.srcId
      · rw [if_pos heq]
        by_cases hbf : pybasename p.localPkg = f
        · rw [if_pos ⟨ht, hbf⟩, ← hbf, hd, heq]
          have hid : p.srcId.dev = dev :=
            hdev _ (dlookup_mem (heq ▸ hd)) p.srcId rfl
          unfold pkgOutcome
          rw [if_neg (by simp [hid])]
        · rw [if_neg (fun hc => hbf hc.2)]
      · rw [if_neg heq]
        by_cases hbf : pybasename p.localPkg = f
        · rw [dlookup_cons, if_pos hbf, if_pos ⟨ht, hbf⟩]
        · rw [dlookup_cons, if_neg hbf, if_neg (fun hc => hbf hc.2),
            dlookup_derase, if_neg (fun hc => hbf hc.symm)]
  · rw [if_neg ht, if_neg (fun hc => ht hc.1)]

theorem stepDir_mem {dev : Nat} {p : Pkg} {d : Dirc} {kv : String × Entry}
    (h : kv ∈ stepDir dev p d) :
    kv ∈ d ∨ kv = (pybasename p.localPkg, pkgOutcome dev p) := by
  unfold stepDir at h
  by_cases ht : pkgTouches p = true
  · rw [if_pos ht] at h
    dsimp only at h
    rcases hd : dlookup d (pybasename p.localPkg) with _ | e <;>
      rw [hd] at h <;> dsimp only at h
    · rcases List.mem_cons.mp h with h1 | h2
      · exact Or.inr h1
      · exact Or.inl h2
    · by_cases heq : e = Entry.hardlink p.srcId
      · rw [if_pos heq] at h
        exact Or.inl h
      · rw [if_neg heq] at h
        rcases List.mem_cons.mp h with h1 | h2
        · exact Or.inr h1
        · exact Or.inl (mem_derase h2)
  · rw [if_neg ht] at h
    exact Or.inl h

theorem stepDir_devOk {dev : Nat} {p : Pkg} {d : Dirc}
    (hdev : DirDevOk dev d) :
    DirDevOk dev (stepDir dev p d) := by
  intro kv hkv id hid
  rcases stepDir_mem hkv with h1 | h2
  · exact hdev kv h1 id hid
  · rw [h2] at hid
    unfold pkgOutcome at hid
    by_cases hd2 : p.srcId.dev = dev
    · rw [if_neg (by simp [hd2])] at hid
      dsimp only at hid
      rw [show id = p.srcId from (Entry.hardlink.injEq _ _ ▸ hid).symm]
      exact hd2
    · rw [if_pos hd2] at hid
      exact absurd hid (by simp)

theorem stepDir_dirEntry {dev : Nat} {p : Pkg} {d : Dirc}
    {kv : String × Entry} (h : kv ∈ stepDir dev p d)
    (hdir : kv.2 = Entry.dir) : kv ∈ d := by
  rcases stepDir_mem h with h1 | h2
  · exact h1
  · rw [h2] at hdir
    unfold pkgOutcome at hdir
    by_cases hd2 : p.srcId.dev ≠ dev <;> simp [hd2] at hdir

theorem loopDir_lookup {dev : Nat} {pkgs : List Pkg} {d : Dirc}
    (hdev : DirDevOk dev d) (hf : ∀ p ∈ pkgs, p.failErr = none)
    (f : String) :
    dlookup (loopDir dev pkgs d) f =
      match finalEntry dev pkgs f with
      | some e => some e
      | none => dlookup d f := by
  induction pkgs generalizing d with
  | nil => rfl
  | cons p ps ih =>
    simp only [loopDir, finalEntry]
    rw [ih (stepDir_devOk hdev)
      (fun q hq => hf q (List.mem_cons_of_mem _ hq))]
    rcases finalEntry dev ps f with _ | e
    · dsimp only
      rw [stepDir_lookup hdev f]
      by_cases hc : pkgTouches p = true ∧ pybasename p.localPkg = f
      · rw [if_pos hc, if_pos hc]
      · rw [if_neg hc, if_neg hc]
    · rfl

theorem loopDir_devOk {dev : Nat} {pkgs : List Pkg} {d : Dirc}
    (hdev : DirDevOk dev d) : DirDevOk dev (loopDir dev pkgs d) := by
  induction pkgs generalizing d with
  | nil => exact hdev
  | cons p ps ih => exact ih (stepDir_devOk hdev)

theorem loopDir_dirEntry {dev : Nat} {pkgs : List Pkg} {d : Dirc}
    {kv : String × Entry} :
    kv ∈ loopDir dev pkgs d → kv.2 = Entry.dir → kv ∈ d := by
  induction pkgs generalizing d with
  | nil => exact fun h _ => h
  | cons p ps ih =>
    intro h hdir
    exact stepDir_dirEntry (ih h hdir) hdir

theorem sweepDir_mem {ns : List String} {d d2 : Dirc}
    (h : sweepDir ns d = Except.ok d2) {kv : String × Entry}
    (hkv : kv ∈ d2) :
    kv ∈ d ∧ (endsWithC kv.1 ".rpm" && !(decide (kv.1 ∈ ns))) = false := by
  induction d generalizing d2 with
  | nil =>
    simp only [sweepDir] at h
    simp at h
    subst h
    exact absurd hkv (List.not_mem_nil _)
  | cons gkv rest ih =>
    obtain ⟨g, e⟩ := gkv
    simp only [sweepDir] at h
    by_cases hg : (endsWithC g ".rpm" && !(decide (g ∈ ns))) = true
    · rw [if_pos hg] at h
      rcases e with _ | id | src
      · exact absurd h (by simp)
      all_goals {
        obtain ⟨h1, h2⟩ := ih h hkv
        exact ⟨List.mem_cons_of_mem _ h1, h2⟩
      }
    · rw [if_neg hg] at h
      rcases hs : sweepDir ns rest with e2 | dd
      · rw [hs] at h; exact absurd h (by simp)
      · rw [hs] at h
        simp at h
        subst h
        rcases List.mem_cons.mp hkv with h1 | h2
        · subst h1
          exact ⟨List.mem_cons_self _ _, by simpa using hg⟩
        · obtain ⟨h1, h3⟩ := ih hs h2
          exact ⟨List.mem_cons_of_mem _ h1, h3⟩

theorem sweepDir_total {ns : List String} {d : Dirc}
    (h : ∀ kv ∈ d, (endsWithC kv.1 ".rpm" && !(decide (kv.1 ∈ ns))) = true →
      kv.2 ≠ Entry.dir) :
    ∃ d2, sweepDir ns d = Except.ok d2 := by
  induction d with
  | nil => exact ⟨[], rfl⟩
  | cons gkv rest ih =>
    obtain ⟨g, e⟩ := gkv
    obtain ⟨dd, hdd⟩ := ih (fun kv hkv => h kv (List.mem_cons_of_mem _ hkv))
    simp only [sweepDir]
    by_cases hg : (endsWithC g ".rpm" && !(decide (g ∈ ns))) = true
    · rw [if_pos hg]
      rcases he : e with _ | id | src
      · exact absurd rfl (h (g, e) (List.mem_cons_self _ _) hg ∘ (he ▸ ·))
      · exact ⟨dd, hdd⟩
      · exact ⟨dd, hdd⟩
    · rw [if_neg hg, hdd]
      exact ⟨(g, e) :: dd, rfl⟩

theorem link_pkgs_fwd {dev : Nat} {pkgs : List Pkg} {st : SysState}
    {ns : List String} {dmid dfin : Dirc}
    (hL : linkLoop dev pkgs ([], st.pkgdir.getD []) = Except.ok (ns, dmid))
    (hS : sweepDir ns dmid = Except.ok dfin) :
    link_pkgs dev pkgs st = Except.ok { st with
      pkgdir := some dfin
      packagelist := some ns
      conf := { st.conf with
        cleanupDirs := some (cachedir ++ ";" ++ packagedir) } } := by
  unfold link_pkgs
  dsimp only
  rw [hL]
  dsimp only
  rw [hS]

theorem stage_eq {dev : Nat} {env : BootEnv} {pkgs : List Pkg}
    {kernel initrd : String} {st stA : SysState}
    (h : link_pkgs dev pkgs st = Except.ok stA) :
    stage dev env pkgs kernel initrd st =
      Except.ok (prep_boot env kernel initrd
        (setup_upgraderoot (setup_upgradelink stA))) := by
  unfold stage prep_upgrade
  rw [h]

theorem postSteps_pkgdir (env : BootEnv) (k i : String) (s : SysState) :
    (prep_boot env k i (setup_upgraderoot (setup_upgradelink s))).pkgdir =
      s.pkgdir := by
  unfold prep_boot boot_add_entry setup_upgraderoot setup_upgradelink
  rcases env.kernelVer with _ | kv <;> rfl

theorem postSteps_conf (env : BootEnv) (k i : String) (s : SysState) :
    (prep_boot env k i (setup_upgraderoot (setup_upgradelink s))).conf =
      { s.conf with bootKernel := some k, bootInitrd := some i } := by
  unfold prep_boot boot_add_entry setup_upgraderoot setup_upgradelink
  rcases env.kernelVer with _ | kv <;> rfl

/-- C1.  Staging is idempotent: under the claim's own proviso that no
link attempt hits an unexpected fatal OS failure (`failErr = none`), and
for a physically representable initial `packagedir` (hard links do not
cross devices), a second run of the Stage Engine with the same inputs
succeeds and produces the same `packagedir` contents and the same
persisted state (cleanup-dirs list, boot kernel and initrd paths) as the
first. -/
theorem c1_stage_idempotent (dev : Nat) (env : BootEnv) (pkgs : List Pkg)
    (kernel initrd : String) (st0 st1 : SysState)
    (hfail : ∀ p ∈ pkgs, p.failErr = none)
    (hdev : DirDevOk dev (st0.pkgdir.getD []))
    (h1 : stage dev env pkgs kernel initrd st0 = Except.ok st1) :
    ∃ st2, stage dev env pkgs kernel initrd st1 = Except.ok st2 ∧
      (∀ f, pkgdirLookup st2 f = pkgdirLookup st1 f) ∧
      st2.conf = st1.conf := by
  -- unpack the first run
  unfold stage prep_upgrade at h1
  rcases hA : link_pkgs dev pkgs st0 with e | stA <;> rw [hA] at h1
  · exact absurd h1 (by simp)
  simp only [Except.ok.injEq] at h1
  obtain ⟨ns, d1, d2, hL1, hS1, hns, hstA⟩ := link_pkgs_inv hA
  have hd1 : d1 = loopDir dev pkgs (st0.pkgdir.getD []) ∧
      ns = pkgNames pkgs [] := by
    have := @linkLoop_eq_loopDir dev pkgs [] (st0.pkgdir.getD []) hfail
    rw [hL1] at this
    simp only [Except.ok.injEq, Prod.mk.injEq] at this
    exact ⟨this.2, this.1⟩
  have hst1pkg : st1.pkgdir = some d2 := by
    rw [← h1, postSteps_pkgdir, hstA]
  have hdev1 : DirDevOk dev d1 := by
    rw [hd1.1]
    exact loopDir_devOk hdev
  have hdev2 : DirDevOk dev d2 :=
    dirDevOk_of_sub (fun kv hkv => (sweepDir_mem hS1 hkv).1) hdev1
  -- the second run's loop and sweep
  have hL2 : linkLoop dev pkgs ([], st1.pkgdir.getD []) =
      Except.ok (ns, loopDir dev pkgs d2) := by
    rw [hst1pkg]
    show linkLoop dev pkgs ([], d2) = Except.ok (ns, loopDir dev pkgs d2)
    rw [linkLoop_eq_loopDir hfail, hd1.2]
  obtain ⟨d2f, hS2⟩ : ∃ d2f,
      sweepDir ns (loopDir dev pkgs d2) = Except.ok d2f := by
    refine sweepDir_total ?_
    intro kv hkv hcond hdir
    have hmem2 : kv ∈ d2 := loopDir_dirEntry hkv hdir
    have := (sweepDir_mem hS1 hmem2).2
    rw [hcond] at this
    exact absurd this (by simp)
  have hB := @link_pkgs_fwd dev pkgs st1 ns (loopDir dev pkgs d2) d2f hL2 hS2
  refine ⟨prep_boot env kernel initrd (setup_upgraderoot (setup_upgradelink
    { st1 with
      pkgdir := some d2f
      packagelist := some ns
      conf := { st1.conf with
        cleanupDirs := some (cachedir ++ ";" ++ packagedir) } })),
    stage_eq hB, ?_, ?_⟩
  · -- pointwise equality of the two final directories
    intro f
    have h2pkg : pkgdirLookup st1 f = dlookup d2 f := by
      unfold pkgdirLookup
      rw [hst1pkg]
      rfl
    have h2pkg2 : (prep_boot env kernel initrd (setup_upgraderoot
        (setup_upgradelink { st1 with
          pkgdir := some d2f
          packagelist := some ns
          conf := { st1.conf with
            cleanupDirs := some (cachedir ++ ";" ++ packagedir) } }))).pkgdir
        = some d2f := by
      rw [postSteps_pkgdir]
    unfold pkgdirLookup
    rw [h2pkg2]
    show dlookup d2f f = pkgdirLookup st1 f
    rw [h2pkg]
    rw [sweepDir_ok_lookup hS2 f]
    rw [loopDir_lookup hdev2 hfail f]
    have hrun1 : dlookup d2 f =
        if endsWithC f ".rpm" && !(decide (f ∈ ns)) then none
        else dlookup d1 f := sweepDir_ok_lookup hS1 f
    by_cases hc : (endsWithC f ".rpm" && !(decide (f ∈ ns))) = true
    · rw [if_pos hc, hrun1, if_pos hc]
    · rw [if_neg hc, hrun1, if_neg hc]
      rcases hfe : finalEntry dev pkgs f with _ | e
      · rfl
      · rw [hd1.1, loopDir_lookup hdev hfail f, hfe]
  · -- the persisted state agrees
    rw [postSteps_conf]
    have hconf1 : st1.conf =
        { cleanupDirs := some (cachedir ++ ";" ++ packagedir)
          bootKernel := some kernel
          bootInitrd := some initrd } := by
      rw [← h1, postSteps_conf, hstA]
    rw [hconf1]

/-- Witness for C1: staging two packages (one hard-linkable, one
cross-device) from an empty initial state; the hypotheses hold by
computation. -/
theorem c1_stage_idempotent_witness :
    ∃ st2, stage 1 ⟨false, false, [], some "4.1"⟩
        [{ localPkg := "/c/a.rpm", remote_url := "http://r",
           relativepath := "", existsOnDisk := true, srcId := ⟨1, 10⟩,
           failErr := none },
         { localPkg := "/m/b.rpm", remote_url := "http://r",
           relativepath := "", existsOnDisk := true, srcId := ⟨2, 20⟩,
           failErr := none }] "/boot/vk" "/boot/vi"
        { pkgdir := some [("b.rpm", Entry.copied "/m/b.rpm"),
            ("a.rpm", Entry.hardlink ⟨1, 10⟩)],
          packagelist := some ["a.rpm", "b.rpm"],
          conf := ⟨some (cachedir ++ ";" ++ packagedir),
            some "/boot/vk", some "/boot/vi"⟩,
          upgradelink := some packagedir, upgraderootExists := true,
          cachedirExists := true, targetRequiresExists := false,
          bootEntries := ["/boot/vk"], files := [],
          dirs := ["/lib/modules/4.1"] } = Except.ok st2 ∧
      (∀ f, pkgdirLookup st2 f = pkgdirLookup
        { pkgdir := some [("b.rpm", Entry.copied "/m/b.rpm"),
            ("a.rpm", Entry.hardlink ⟨1, 10⟩)],
          packagelist := some ["a.rpm", "b.rpm"],
          conf := ⟨some (cachedir ++ ";" ++ packagedir),
            some "/boot/vk", some "/boot/vi"⟩,
          upgradelink := some packagedir, upgraderootExists := true,
          cachedirExists := true, targetRequiresExists := false,
          bootEntries := ["/boot/vk"], files := [],
          dirs := ["/lib/modules/4.1"] } f) ∧
      st2.conf = Conf.mk (some (cachedir ++ ";" ++ packagedir))
        (some "/boot/vk") (some "/boot/vi") :=
  c1_stage_idempotent 1 ⟨false, false, [], some "4.1"⟩
    [{ localPkg := "/c/a.rpm", remote_url := "http://r",
       relativepath := "", existsOnDisk := true, srcId := ⟨1, 10⟩,
       failErr := none },
     { localPkg := "/m/b.rpm", remote_url := "http://r",
       relativepath := "", existsOnDisk := true, srcId := ⟨2, 20⟩,
       failErr := none }] "/boot/vk" "/boot/vi"
    { pkgdir := none, packagelist := none, conf := ⟨none, none, none⟩,
      upgradelink := none, upgraderootExists := false,
      cachedirExists := true, targetRequiresExists := false,
      bootEntries := [], files := [], dirs := [] }
    { pkgdir := some [("b.rpm", Entry.copied "/m/b.rpm"),
        ("a.rpm", Entry.hardlink ⟨1, 10⟩)],
      packagelist := some ["a.rpm", "b.rpm"],
      conf := ⟨some (cachedir ++ ";" ++ packagedir),
        some "/boot/vk", some "/boot/vi"⟩,
      upgradelink := some packagedir, upgraderootExists := true,
      cachedirExists := true, targetRequiresExists := false,
      bootEntries := ["/boot/vk"], files := [],
      dirs := ["/lib/modules/4.1"] }
    (by decide) (by intro kv hkv id hid; simp at hkv) rfl

/-- ASCII `str.lower()` (the arguments compared are ASCII). -/
def toLowerC (s : String) : String :=
  String.mk (s.data.map Char.toLower)

/-- Digit-string value; `none` when a non-digit appears. -/
def digitsToNat (acc : Nat) : List Char → Option Nat
  | [] => some acc
  | c :: cs =>
    if c.isDigit then digitsToNat (acc * 10 + (c.toNat - 48)) cs else none

/-- Split a character list at the first occurrence of `c`. -/
def splitFirst (c : Char) : List Char → Option (List Char × List Char)
  | [] => none
  | x :: xs =>
    if x = c then some ([], xs)
    else (splitFirst c xs).map (fun ab => (x :: ab.1, ab.2))

/-- Python `float(s)` for plain decimal notation (an optional sign, an
integer part and an optional fractional part; at least one digit);
`none` models `ValueError`. -/
def pyFloat (s : String) : Option Rat :=
  let withSign : Bool × List Char :=
    match s.data with
    | '-' :: rest => (true, rest)
    | '+' :: rest => (false, rest)
    | cs => (false, cs)
  let neg := withSign.1
  let body := withSign.2
  let signed : Rat → Option Rat := fun r => some (if neg then -r else r)
  match splitFirst '.' body with
  | none =>
    match body, digitsToNat 0 body with
    | [], _ => none
    | _ :: _, some n => signed n
    | _ :: _, none => none
  | some (ip, fp) =>
    if fp.contains '.' then none
    else
      match digitsToNat 0 ip, digitsToNat 0 fp with
      | some i, some fr =>
        match ip, fp with
        | [], [] => none
        | _, _ => signed ((i : Rat) + (fr : Rat) / ((10 : Rat) ^ fp.length))
      | _, _ => none

/-- The Python-level failures command-line validation can raise. -/
inductive PyErr where
  | usage (msg : String) : PyErr
  | attributeError : PyErr
  | valueError : PyErr
  | typeError : PyErr
deriving DecidableEq, Repr

/-- `VERSION` (src/fedup/commandline.py lines 234-245) against an
installed distribution version string: `rawhide` in any case passes
through; otherwise the argument must parse as a float greater than the
installed version's float.  In the failing branch the source formats
`_("version must be greater than %i") % version` where `version` is a
`str`, and `%i` with a string operand raises `TypeError` before any
`ArgumentTypeError` can carry the message. -/
def VERSION_ (arg : String) (version : String) : Except PyErr String :=
  if toLowerC arg = "rawhide" then Except.ok "rawhide"
  else
    match pyFloat arg with
    | none => Except.error PyErr.valueError
    | some a =>
      match pyFloat version with
      | none => Except.error PyErr.valueError
      | some v =>
        if a > v then Except.ok arg
        else Except.error PyErr.typeError

/-- A discovered install medium (`fedup.media` reference): device path
and mount point. -/
structure MediaRef where
  dev : String
  mnt : String
deriving DecidableEq, Repr

/-- The messages of `device_or_mnt`. -/
def noMediaMsg : String :=
  "no install media found - please mount install media first"

/-- `", ".join(m.dev for m in localmedia)` inside the multiple-devices
message. -/
def multiMsg (lm : List MediaRef) : String :=
  "multiple devices found. please choose one of (" ++
    String.intercalate ", " (lm.map MediaRef.dev) ++ ")"

/-- `device_or_mnt` (lines 185-204): `auto` uses the discovered list as
is; an explicit argument is canonicalized by `os.path.realpath` (the
`rp` parameter) and matched against each reference's device or mount
path; exactly one match is returned, zero or several raise with the
documented messages. -/
def device_or_mnt (rp : String → String) (found : List MediaRef)
    (arg : String) : Except String MediaRef :=
  let argC := if arg = "auto" then arg else rp arg
  let lm := if arg = "auto" then found
    else found.filter (fun m => argC = m.dev || argC = m.mnt)
  match lm with
  | [m] => Except.ok m
  | [] => Except.error
      (if argC ≠ "auto" then argC ++ ": " ++ noMediaMsg else noMediaMsg)
  | _ => Except.error (multiMsg lm)

/-- The `--addrepo` syntax message. -/
def repoMsg : String := "value should be REPOID=[@]URL"

/-- Python `value.partition("=")` as (head, tail, separator-found). -/
def pyPartitionEq (v : String) : String × String × Bool :=
  match splitFirst '=' v.data with
  | none => (v, "", false)
  | some ab => (String.mk ab.1, String.mk ab.2, true)

/-- `RepoAction.__call__` (lines 165-182): the action kind follows the
option name; `--addrepo` validates `repoid=[@]url` (non-empty repo id,
a `=` present, and `://` inside the url); the pair is appended to the
accumulated list. -/
def repoActionCall (opt value : String) (cur : List (String × String)) :
    Except String (List (String × String)) :=
  if startsWithC opt "--enable" then
    Except.ok (cur ++ [("enable", value)])
  else if startsWithC opt "--disable" then
    Except.ok (cur ++ [("disable", value)])
  else if startsWithC opt "--addrepo" then
    let parts := pyPartitionEq value
    if parts.1 ≠ "" ∧ parts.2.2 = true ∧ infixC "://".data parts.2.1.data
    then Except.ok (cur ++ [("add", value)])
    else Except.error repoMsg
  else Except.ok (cur ++ [("", value)])

/-- The validated argument record at the point `parse_args` reaches line
119 (after argparse type conversion). -/
structure Args where
  network : Option String
  device : Option MediaRef
  iso : Option String
  clean : Option String
  product : Option String
  instrepo : Option String
  instrepokey : Option String
  repos : List (String × String)
  resetbootloader : Bool
deriving DecidableEq, Repr

/-- The `p.error` message of the source check (line 122). -/
def srcRequiredMsg : String :=
  "SOURCE is required (--network, --device, --iso)"

/-- The `p.error` message of the product check (lines 136-149),
abbreviated to its first sentence; only its identity matters. -/
def productMsg : String :=
  "This installation of Fedora does not belong to a product, so you " ++
  "must provide the --product=PRODUCTNAME option to specify what " ++
  "product you want to upgrade to."

/-- The first `--instrepo` rewrite (lines 125-127): a URL-shaped
`instrepo` becomes a synthetic `add` repo action under the fixed id. -/
def instrepoAdd (a : Args) : Args :=
  match a.instrepo with
  | some u =>
    if u ≠ "" ∧ infixC "://".data u.data then
      { a with repos := a.repos ++ [("add", "instrepo=" ++ u)],
               instrepo := some "instrepo" }
    else a
  | none => a

/-- The second `--instrepo` rewrite (lines 129-130): with both an
`instrepo` and a key set, append a synthetic `gpgkey` action. -/
def instrepoKey (a : Args) : Args :=
  match a.instrepo, a.instrepokey with
  | some u, some k =>
    if u ≠ "" ∧ k ≠ "" then
      { a with repos := a.repos ++ [("gpgkey", "instrepo=" ++ k)] }
    else a
  | _, _ => a

/-- The `--instrepo` rewriting (lines 124-130). -/
def instrepoRewrite (a : Args) : Args :=
  instrepoKey (instrepoAdd a)

/-- The Fedora.next condition of line 134, with Python evaluation order:
`distro.lower() == 'fedora' and float(version) <= 20 and
(args.network.lower() == 'rawhide' or float(args.network) >= 21)`.
`args.network` may be `None`, in which case reaching the third conjunct
raises `AttributeError`. -/
def fedoraNext (distro version : String) (network : Option String) :
    Except PyErr Bool :=
  if toLowerC distro ≠ "fedora" then Except.ok false
  else
    match pyFloat version with
    | none => Except.error PyErr.valueError
    | some v =>
      if ¬ (v ≤ 20) then Except.ok false
      else
        match network with
        | none => Except.error PyErr.attributeError
        | some nw =>
          if toLowerC nw = "rawhide" then Except.ok true
          else
            match pyFloat nw with
            | none => Except.error PyErr.valueError
            | some n => Except.ok (decide (n ≥ 21))

/-- The validation tail of `parse_args` (lines 119-155): the source
check, the `--instrepo` rewriting, the Fedora.next product check, and
the clean-implies-resetbootloader shortcut. -/
def validate (distro version : String) (gui : Bool) (a : Args) :
    Except PyErr Args :=
  if ¬ (gui || pyTruthy a.network || a.device.isSome || pyTruthy a.iso ||
      pyTruthy a.clean) then
    Except.error (PyErr.usage srcRequiredMsg)
  else
    let a2 := instrepoRewrite a
    match fedoraNext distro version a2.network with
    | Except.error e => Except.error e
    | Except.ok fn =>
      if fn && !(pyTruthy a2.product) then
        Except.error (PyErr.usage productMsg)
      else
        Except.ok (if gui = false ∧ pyTruthy a2.clean = true then
          { a2 with resetbootloader := true } else a2)


theorem instrepoAdd_network (a : Args) :
    (instrepoAdd a).network = a.network := by
  unfold instrepoAdd
  rcases h : a.instrepo with _ | u
  · rfl
  · dsimp only
    split_ifs <;> rfl

theorem instrepoKey_network (a : Args) :
    (instrepoKey a).network = a.network := by
  unfold instrepoKey
  rcases h1 : a.instrepo with _ | u <;> rcases h2 : a.instrepokey with _ | k
  · rfl
  · rfl
  · rfl
  · dsimp only
    split_ifs <;> rfl

theorem instrepoRewrite_network (a : Args) :
    (instrepoRewrite a).network = a.network := by
  unfold instrepoRewrite
  rw [instrepoKey_network, instrepoAdd_network]

theorem instrepoAdd_product (a : Args) :
    (instrepoAdd a).product = a.product := by
  unfold instrepoAdd
  rcases h : a.instrepo with _ | u
  · rfl
  · dsimp only
    split_ifs <;> rfl

theorem instrepoKey_product (a : Args) :
    (instrepoKey a).product = a.product := by
  unfold instrepoKey
  rcases h1 : a.instrepo with _ | u <;> rcases h2 : a.instrepokey with _ | k
  · rfl
  · rfl
  · rfl
  · dsimp only
    split_ifs <;> rfl

theorem instrepoRewrite_product (a : Args) :
    (instrepoRewrite a).product = a.product := by
  unfold instrepoRewrite
  rw [instrepoKey_product, instrepoAdd_product]

theorem fedoraNext_no_usage {distro version : String}
    {network : Option String} {m : String} :
    fedoraNext distro version network ≠ Except.error (PyErr.usage m) := by
  intro h
  unfold fedoraNext at h
  by_cases hq1 : toLowerC distro ≠ "fedora"
  · rw [if_pos hq1] at h
    simp at h
  · rw [if_neg hq1] at h
    rcases hv : pyFloat version with _ | v <;> rw [hv] at h
    · simp at h
    · dsimp only at h
      by_cases hq3 : ¬ (v ≤ 20)
      · rw [if_pos hq3] at h
        simp at h
      · rw [if_neg hq3] at h
        rcases network with _ | nw
        · simp at h
        · dsimp only at h
          by_cases hq4 : toLowerC nw = "rawhide"
          · rw [if_pos hq4] at h
            simp at h
          · rw [if_neg hq4] at h
            rcases hn : pyFloat nw with _ | n <;> rw [hn] at h <;> simp at h

theorem fedoraNext_ok_true_inv {distro version : String}
    {network : Option String}
    (h : fedoraNext distro version network = Except.ok true) :
    toLowerC distro = "fedora" ∧
      (∃ v, pyFloat version = some v ∧ v ≤ 20) ∧
      (∃ nw, network = some nw ∧
        (toLowerC nw = "rawhide" ∨ ∃ n, pyFloat nw = some n ∧ 21 ≤ n)) := by
  unfold fedoraNext at h
  by_cases hq1 : toLowerC distro = "fedora"
  · rw [if_neg (not_not_intro hq1)] at h
    rcases hv : pyFloat version with _ | v <;> rw [hv] at h
    · exact absurd h (by simp)
    · dsimp only at h
      by_cases hq3 : v ≤ 20
      · rw [if_neg (not_not_intro hq3)] at h
        rcases network with _ | nw
        · exact absurd h (by simp)
        · dsimp only at h
          by_cases hq4 : toLowerC nw = "rawhide"
          · exact ⟨hq1, ⟨v, rfl, hq3⟩, ⟨nw, rfl, Or.inl hq4⟩⟩
          · rw [if_neg hq4] at h
            rcases hn2 : pyFloat nw with _ | n <;> rw [hn2] at h
            · exact absurd h (by simp)
            · simp only [Except.ok.injEq, decide_eq_true_eq] at h
              exact ⟨hq1, ⟨v, rfl, hq3⟩, ⟨nw, rfl, Or.inr ⟨n, hn2, h⟩⟩⟩
      · rw [if_pos hq3] at h
        exact absurd h (by simp)
  · rw [if_pos hq1] at h
    exact absurd h (by simp)

theorem msgs_distinct : srcRequiredMsg ≠ productMsg := by decide

/-- Counterexample to C4 as stated: an invocation with two source
selectors (a device and an iso) and no clean mode passes validation
unchanged; the code enforces at least one source, not exactly one. -/
theorem c4_counterexample :
    validate "Ubuntu" "20.04" false
      ⟨none, some ⟨"/dev/sr0", "/mnt"⟩, some "/x.iso", none, none, none,
        none, [], false⟩ =
      Except.ok ⟨none, some ⟨"/dev/sr0", "/mnt"⟩, some "/x.iso", none,
        none, none, none, [], false⟩ := rfl

/-- C4 as amended: validation fails with the source-required message
exactly when no source selector is truthy and no clean mode is present
(and the parser is not in GUI mode); two or more selectors are accepted. -/
theorem c4_source_required_iff (distro version : String) (gui : Bool)
    (a : Args) :
    validate distro version gui a =
        Except.error (PyErr.usage srcRequiredMsg) ↔
      (gui = false ∧ pyTruthy a.network = false ∧ a.device = none ∧
        pyTruthy a.iso = false ∧ pyTruthy a.clean = false) := by
  unfold validate
  by_cases hc : (gui || pyTruthy a.network || a.device.isSome ||
      pyTruthy a.iso || pyTruthy a.clean) = true
  · rw [if_neg (by simp [hc])]
    constructor
    · intro h
      exfalso
      dsimp only at h
      rcases hfn : fedoraNext distro version (instrepoRewrite a).network
        with e | fn <;> rw [hfn] at h <;> dsimp only at h
      · rw [show e = PyErr.usage srcRequiredMsg from by simpa using h]
          at hfn
        exact fedoraNext_no_usage hfn
      · by_cases h2 : (fn && !(pyTruthy (instrepoRewrite a).product)) = true
        · rw [if_pos h2] at h
          simp only [Except.error.injEq, PyErr.usage.injEq] at h
          exact msgs_distinct h.symm
        · rw [if_neg h2] at h
          simp at h
    · intro h
      exfalso
      rcases h with ⟨hg, hn, hd, hi, hcl⟩
      rw [hg, hn, hd, hi, hcl] at hc
      simp at hc
  · rw [if_pos (by simpa using hc)]
    simp only [Bool.or_eq_true, not_or, Bool.not_eq_true] at hc
    obtain ⟨⟨⟨⟨hg, hn⟩, hd⟩, hi⟩, hcl⟩ := hc
    have hd2 : a.device = none := by
      rcases hdd : a.device with _ | m
      · rfl
      · rw [hdd] at hd
        simp at hd
    simp [hg, hn, hd2, hi, hcl]

/-- C5.  Validation demands a product tag (the product-required usage
error) exactly when the installed system is a Fedora whose version
parses at or below 20 and the requested network target is `rawhide` (any
case) or parses at or above 21, and no product was given. -/
theorem c5_product_required_iff (distro version : String) (gui : Bool)
    (a : Args) :
    validate distro version gui a = Except.error (PyErr.usage productMsg) ↔
      (toLowerC distro = "fedora" ∧
        (∃ v, pyFloat version = some v ∧ v ≤ 20) ∧
        (∃ nw, a.network = some nw ∧
          (toLowerC nw = "rawhide" ∨ ∃ n, pyFloat nw = some n ∧ 21 ≤ n)) ∧
        pyTruthy a.product = false) := by
  constructor
  · intro h
    unfold validate at h
    by_cases hc : (gui || pyTruthy a.network || a.device.isSome ||
        pyTruthy a.iso || pyTruthy a.clean) = true
    · rw [if_neg (by simp [hc])] at h
      dsimp only at h
      rcases hfn : fedoraNext distro version (instrepoRewrite a).network
        with e | fn <;> rw [hfn] at h <;> dsimp only at h
      · rw [show e = PyErr.usage productMsg from by simpa using h] at hfn
        exact absurd hfn fedoraNext_no_usage
      · by_cases h2 : (fn && !(pyTruthy (instrepoRewrite a).product)) = true
        · simp only [Bool.and_eq_true, Bool.not_eq_true'] at h2
          obtain ⟨hfn2, hprod⟩ := h2
          subst hfn2
          rw [instrepoRewrite_network] at hfn
          rw [instrepoRewrite_product] at hprod
          obtain ⟨q1, q2, q3⟩ := fedoraNext_ok_true_inv hfn
          exact ⟨q1, q2, q3, hprod⟩
        · rw [if_neg h2] at h
          simp at h
    · rw [if_pos (by simpa using hc)] at h
      simp only [Except.error.injEq, PyErr.usage.injEq] at h
      exact absurd h msgs_distinct
  · rintro ⟨hdist, ⟨v, hv, hvle⟩, ⟨nw, hnw, hcase⟩, hprod⟩
    have hnwne : nw ≠ "" := by
      rcases hcase with hr | ⟨n, hn, _⟩
      · intro hcontra
        rw [hcontra] at hr
        exact absurd hr (by decide)
      · intro hcontra
        rw [hcontra] at hn
        rw [show pyFloat "" = none from rfl] at hn
        exact Option.noConfusion hn
    have htr : pyTruthy a.network = true := by
      rw [hnw]
      unfold pyTruthy
      simpa using hnwne
    unfold validate
    rw [if_neg (by simp [htr])]
    dsimp only
    have hfn : fedoraNext distro version (instrepoRewrite a).network =
        Except.ok true := by
      rw [instrepoRewrite_network, hnw]
      unfold fedoraNext
      rw [if_neg (not_not_intro hdist), hv]
      dsimp only
      rw [if_neg (not_not_intro hvle)]
      by_cases hr : toLowerC nw = "rawhide"
      · rw [if_pos hr]
      · rw [if_neg hr]
        rcases hcase with hr2 | ⟨n, hn, hn21⟩
        · exact absurd hr2 hr
        · rw [hn]
          simp [hn21]
    rw [hfn]
    dsimp only
    rw [if_pos (by simp [instrepoRewrite_product, hprod])]

/-- C6.  On a Fedora at or below version 20, an invocation whose source
is a device, an iso or a clean request (so `args.network` is `None`)
makes the cross-field product check evaluate `None.lower()`: validation
raises `AttributeError` instead of completing. -/
theorem c6_none_network_attribute_error (distro version : String) (v : Rat)
    (gui : Bool) (a : Args)
    (hd : toLowerC distro = "fedora") (hv : pyFloat version = some v)
    (hle : v ≤ 20) (hn : a.network = none)
    (hsrc : (gui || a.device.isSome || pyTruthy a.iso ||
      pyTruthy a.clean) = true) :
    validate distro version gui a = Except.error PyErr.attributeError := by
  have hnet : pyTruthy a.network = false := by rw [hn]; rfl
  have hcond : (gui || pyTruthy a.network || a.device.isSome ||
      pyTruthy a.iso || pyTruthy a.clean) = true := by
    rw [hnet]
    rcases (by simpa using hsrc :
      ((gui = true ∨ a.device.isSome = true) ∨ pyTruthy a.iso = true) ∨
        pyTruthy a.clean = true) with ((h | h) | h) | h <;> simp [h]
  unfold validate
  rw [if_neg (by simp [hcond])]
  dsimp only
  have hfn : fedoraNext distro version (instrepoRewrite a).network =
      Except.error PyErr.attributeError := by
    rw [instrepoRewrite_network, hn]
    unfold fedoraNext
    rw [if_neg (not_not_intro hd), hv]
    dsimp only
    rw [if_neg (not_not_intro hle)]
  rw [hfn]

/-- Witness for C6: Fedora 20 with a device source and no network
version raises `AttributeError`. -/
theorem c6_none_network_attribute_error_witness :
    validate "Fedora" "20" false
      ⟨none, some ⟨"/dev/sr0", "/mnt"⟩, none, none, none, none, none,
        [], false⟩ = Except.error PyErr.attributeError :=
  c6_none_network_attribute_error "Fedora" "20" 20 false
    ⟨none, some ⟨"/dev/sr0", "/mnt"⟩, none, none, none, none, none,
      [], false⟩ rfl rfl (le_refl 20) rfl rfl

/-- C7 (code-bug evidence).  The `rawhide` and strictly-greater cases of
`VERSION` behave as specified, but the failing branch never produces the
documented "version must be greater than N" message: formatting `%i`
with the string `version` raises `TypeError`, for an equal version too. -/
theorem c7_version_behavior :
    VERSION_ "rawhide" "20" = Except.ok "rawhide" ∧
    VERSION_ "RaWhIdE" "20" = Except.ok "rawhide" ∧
    VERSION_ "25" "20" = Except.ok "25" ∧
    VERSION_ "18" "20" = Except.error PyErr.typeError ∧
    VERSION_ "20" "20" = Except.error PyErr.typeError ∧
    (∀ arg version : String, ∀ a v : Rat,
      toLowerC arg ≠ "rawhide" → pyFloat arg = some a →
      pyFloat version = some v → ¬ a > v →
      VERSION_ arg version = Except.error PyErr.typeError) := by
  refine ⟨rfl, rfl, rfl, rfl, rfl, ?_⟩
  intro arg version a v hr ha hv hle
  unfold VERSION_
  rw [if_neg hr, ha, hv]
  dsimp only
  rw [if_neg hle]

/-- The matching stage of `device_or_mnt` for an already-canonicalized
explicit argument. -/
def matchExplicit (p : String) (found : List MediaRef) :
    Except String MediaRef :=
  let lm := found.filter (fun m => p = m.dev || p = m.mnt)
  match lm with
  | [m] => Except.ok m
  | [] => Except.error
      (if p ≠ "auto" then p ++ ": " ++ noMediaMsg else noMediaMsg)
  | _ => Except.error (multiMsg lm)

/-- C8.  `device_or_mnt('auto')` returns the single discovered medium
exactly when there is exactly one; none found gives the no-media
message; two or more give the multiple-devices message listing the
device identifiers; an explicit argument is first canonicalized with
`realpath` and then matched against each reference's device or mount
path. -/
theorem c8_device_or_mnt (rp : String → String) (found : List MediaRef)
    (arg : String) (m : MediaRef) :
    (device_or_mnt rp found "auto" = Except.ok m ↔ found = [m]) ∧
    (found = [] →
      device_or_mnt rp found "auto" = Except.error noMediaMsg) ∧
    (2 ≤ found.length →
      device_or_mnt rp found "auto" = Except.error (multiMsg found)) ∧
    (arg ≠ "auto" →
      device_or_mnt rp found arg = matchExplicit (rp arg) found) := by
  refine ⟨?_, ?_, ?_, ?_⟩
  · unfold device_or_mnt
    dsimp only
    rw [if_pos rfl]
    rcases found with _ | ⟨m1, _ | ⟨m2, rest⟩⟩
    · simp
    · dsimp only
      constructor
      · intro h
        simp only [Except.ok.injEq] at h
        rw [h]
      · intro h
        simp only [List.cons.injEq] at h
        rw [h.1]
    · dsimp only
      constructor
      · intro h
        exact absurd h (by simp)
      · intro h
        simp at h
  · intro h
    subst h
    unfold device_or_mnt
    dsimp only
    rw [if_pos rfl]
    rfl
  · intro h
    unfold device_or_mnt
    dsimp only
    rw [if_pos rfl]
    rcases found with _ | ⟨m1, _ | ⟨m2, rest⟩⟩
    · simp at h
    · simp at h
    · rfl
  · intro h
    unfold device_or_mnt matchExplicit
    dsimp only
    simp only [if_neg h]

theorem splitFirst_sound {c : Char} : ∀ {cs a b : List Char},
    splitFirst c cs = some (a, b) → cs = a ++ c :: b ∧ c ∉ a := by
  intro cs
  induction cs with
  | nil => intro a b h; simp [splitFirst] at h
  | cons x xs ih =>
    intro a b h
    by_cases hx : x = c
    · rw [splitFirst, if_pos hx] at h
      simp only [Option.some.injEq, Prod.mk.injEq] at h
      rw [← h.1, ← h.2, hx]
      exact ⟨rfl, List.not_mem_nil c⟩
    · rw [splitFirst, if_neg hx] at h
      rcases hs : splitFirst c xs with _ | ⟨a2, b2⟩ <;> rw [hs] at h
      · simp at h
      · simp only [Option.map_some', Option.some.injEq, Prod.mk.injEq] at h
        obtain ⟨ha, hb⟩ := h
        obtain ⟨hcs, hni⟩ := ih hs
        constructor
        · rw [← ha, ← hb, hcs]
          rfl
        · rw [← ha]
          intro hmem
          rcases List.mem_cons.mp hmem with h1 | h2
          · exact hx h1.symm
          · exact hni h2

theorem splitFirst_complete {c : Char} : ∀ (a b : List Char), c ∉ a →
    splitFirst c (a ++ c :: b) = some (a, b) := by
  intro a
  induction a with
  | nil => intro b _; simp [splitFirst]
  | cons x a2 ih =>
    intro b hna
    have hx : ¬ x = c := fun h => hna (h ▸ List.mem_cons_self _ _)
    rw [List.cons_append, splitFirst, if_neg hx,
      ih b (fun h => hna (List.mem_cons_of_mem _ h))]
    rfl

theorem isPrefC_iff {n : List Char} : ∀ {h : List Char},
    isPrefC n h = true ↔ ∃ t, h = n ++ t := by
  induction n with
  | nil => intro h; simp [isPrefC]
  | cons a as ih =>
    intro h
    rcases h with _ | ⟨b, bs⟩
    · simp [isPrefC]
    · rw [isPrefC]
      constructor
      · intro hand
        simp only [Bool.and_eq_true, decide_eq_true_eq] at hand
        obtain ⟨t, ht⟩ := ih.mp hand.2
        exact ⟨t, by rw [ht, hand.1]; rfl⟩
      · rintro ⟨t, ht⟩
        simp only [List.cons_append, List.cons.injEq] at ht
        simp only [Bool.and_eq_true, decide_eq_true_eq]
        exact ⟨ht.1.symm, ih.mpr ⟨t, ht.2⟩⟩

theorem infixC_iff {n : List Char} : ∀ {h : List Char},
    infixC n h = true ↔ ∃ pre post, h = pre ++ n ++ post := by
  intro h
  induction h with
  | nil =>
    rcases hn : n with _ | ⟨c, cs⟩ <;> simp [infixC, hn]
  | cons b bs ih =>
    rw [infixC]
    constructor
    · intro hor
      rcases Bool.or_eq_true _ _ |>.mp hor with h1 | h2
      · obtain ⟨t, ht⟩ := isPrefC_iff.mp h1
        exact ⟨[], t, by rw [ht]; rfl⟩
      · obtain ⟨pre, post, hp⟩ := ih.mp h2
        exact ⟨b :: pre, post, by rw [hp]; rfl⟩
    · rintro ⟨pre, post, hp⟩
      rcases pre with _ | ⟨p1, prest⟩
      · simp only [List.nil_append] at hp
        refine Bool.or_eq_true _ _ |>.mpr (Or.inl ?_)
        exact isPrefC_iff.mpr ⟨post, hp⟩
      · simp only [List.cons_append, List.cons.injEq] at hp
        refine Bool.or_eq_true _ _ |>.mpr (Or.inr ?_)
        exact ih.mpr ⟨prest, post, hp.2⟩

/-- C9.  Repo actions accumulate in the order given, appended to the
current list and never deduplicated; an `--addrepo` value is accepted
exactly when it splits as `repoid=url` at the first `=` with a non-empty
repo id and a `://` inside the url, and rejected with the documented
message otherwise. -/
theorem c9_repo_actions (v w : String) (cur : List (String × String)) :
    (repoActionCall "--enablerepo" w cur =
      Except.ok (cur ++ [("enable", w)])) ∧
    (repoActionCall "--disablerepo" w cur =
      Except.ok (cur ++ [("disable", w)])) ∧
    ((match repoActionCall "--enablerepo" "foo" [] with
      | Except.ok r1 => repoActionCall "--disablerepo" "foo" r1
      | Except.error e => Except.error e) =
      Except.ok [("enable", "foo"), ("disable", "foo")]) ∧
    (∀ r, repoActionCall "--addrepo" v cur = Except.ok r →
      r = cur ++ [("add", v)]) ∧
    ((∃ r, repoActionCall "--addrepo" v cur = Except.ok r) ↔
      (∃ rid url : List Char, v.data = rid ++ '=' :: url ∧ rid ≠ [] ∧
        '=' ∉ rid ∧ ∃ pre post, url = pre ++ "://".data ++ post)) ∧
    ((¬ ∃ r, repoActionCall "--addrepo" v cur = Except.ok r) →
      repoActionCall "--addrepo" v cur = Except.error repoMsg) := by
  have haddrepo : repoActionCall "--addrepo" v cur =
      (let parts := pyPartitionEq v
       if parts.1 ≠ "" ∧ parts.2.2 = true ∧
           infixC "://".data parts.2.1.data
       then Except.ok (cur ++ [("add", v)])
       else Except.error repoMsg) := by
    unfold repoActionCall
    rw [if_neg (by decide), if_neg (by decide), if_pos (by decide)]
  refine ⟨rfl, rfl, rfl, ?_, ?_, ?_⟩
  · intro r hr
    rw [haddrepo] at hr
    dsimp only at hr
    by_cases hcond : ((pyPartitionEq v).1 ≠ "" ∧
        (pyPartitionEq v).2.2 = true ∧
        infixC "://".data (pyPartitionEq v).2.1.data = true)
    · rw [if_pos hcond] at hr
      simpa using hr.symm
    · rw [if_neg hcond] at hr
      simp at hr
  · constructor
    · rintro ⟨r, hr⟩
      rw [haddrepo] at hr
      dsimp only at hr
      by_cases hcond : ((pyPartitionEq v).1 ≠ "" ∧
          (pyPartitionEq v).2.2 = true ∧
          infixC "://".data (pyPartitionEq v).2.1.data = true)
      · obtain ⟨h1, h2, h3⟩ := hcond
        rcases hp : splitFirst '=' v.data with _ | ⟨a, b⟩ <;>
          unfold pyPartitionEq at h1 h2 h3 <;> rw [hp] at h1 h2 h3 <;>
          dsimp only at h1 h2 h3
        · simp at h2
        · obtain ⟨hv2, hni⟩ := splitFirst_sound hp
          obtain ⟨pre, post, hinf⟩ := infixC_iff.mp h3
          refine ⟨a, b, hv2, ?_, hni, pre, post, hinf⟩
          intro hcontra
          rw [hcontra] at h1
          exact h1 rfl
      · rw [if_neg hcond] at hr
        simp at hr
    · rintro ⟨rid, url, hsplit, hrid, hni, pre, post, hinf⟩
      rw [haddrepo]
      dsimp only
      have hp : splitFirst '=' v.data = some (rid, url) := by
        rw [hsplit]
        exact splitFirst_complete rid url hni
      have hcnd : (pyPartitionEq v).1 ≠ "" ∧ (pyPartitionEq v).2.2 = true ∧
          infixC "://".data (pyPartitionEq v).2.1.data = true := by
        unfold pyPartitionEq
        rw [hp]
        dsimp only
        refine ⟨?_, rfl, ?_⟩
        · intro hcontra
          exact hrid (by simpa using congrArg String.data hcontra)
        · exact infixC_iff.mpr ⟨pre, post, hinf⟩
      rw [if_pos hcnd]
      exact ⟨_, rfl⟩
  · intro hne
    rw [haddrepo]
    dsimp only
    by_cases hcond : ((pyPartitionEq v).1 ≠ "" ∧
        (pyPartitionEq v).2.2 = true ∧
        infixC "://".data (pyPartitionEq v).2.1.data = true)
    · exfalso
      apply hne
      rw [haddrepo]
      dsimp only
      rw [if_pos hcond]
      exact ⟨_, rfl⟩
    · rw [if_neg hcond]
